import Mathlib

/-!
Shallow embedding of the ClusterRunner master core.

The authoritative source is `src/app/database/build_store.py` (the tiered
build store).  The entity classes (`Build`, `Subjob`, `Atom`,
`BuildArtifact`, the build FSM) and the `ClusterMaster` orchestration are
not part of the source tree; where they are needed they are modelled from
the specification, and each such definition carries a doc comment starting
with `Modelled from the spec:`.

The relational session is modelled explicitly: a committed `Database` plus
a list of pending insert operations.  `query(...).delete()` executes
immediately on the flushed view (SQLAlchemy autoflush semantics), inserts
stay pending until a commit.  This makes the clear-and-rewrite ordering of
`_update_build` observable.
-/

namespace ClusterRunner

/-- Modelled from the spec: the build lifecycle states of the build FSM
(`app.master.build_fsm.BuildState`, not under `src/`), §4.1. -/
inductive BuildState
  | QUEUED
  | PREPARING
  | PREPARED
  | BUILDING
  | FINISHED
  | CANCELED
  | ERROR
deriving DecidableEq, Repr

/-- The per-state first-entry timestamps of a build FSM.  The Python side
keeps a dict keyed by the seven state names; `_store_build` reads all seven
keys, so a total structure with seven nullable fields is the faithful shape. -/
structure FsmTimestamps where
  queued : Option Nat
  preparing : Option Nat
  prepared : Option Nat
  building : Option Nat
  finished : Option Nat
  canceled : Option Nat
  error : Option Nat
deriving DecidableEq, Repr

/-- Modelled from the spec: `Atom` (§3) — identity `atom_id`, a command
string, nullable expected/actual durations, nullable exit code and an
execution-status value.  (`app.master.atom` is not under `src/`.) -/
structure Atom where
  id : Nat
  command_string : String
  expected_time : Option Int
  actual_time : Option Int
  exit_code : Option Int
  state : String
deriving DecidableEq, Repr

/-- Modelled from the spec: `Subjob` (§3) — identity `subjob_id`, an ordered
atom sequence and a `completed` flag; it carries its owning build's id.
(`app.master.subjob` is not under `src/`.) -/
structure Subjob where
  build_id : Nat
  subjob_id : Nat
  atoms : List Atom
  completed : Bool
deriving DecidableEq, Repr

/-- A bounded FIFO queue (Python `queue.Queue(maxsize=...)`); `put` appends. -/
structure BQueue (α : Type) where
  maxsize : Nat
  items : List α
deriving DecidableEq, Repr

def BQueue.put {α : Type} (q : BQueue α) (a : α) : BQueue α :=
  { q with items := q.items ++ [a] }

/-- Modelled from the spec: `BuildArtifact` (§3) — a nullable base directory,
the set of directories whose artifact collection failed and the set of
failed (subjob, atom) pairs.  `q_failed_subjob_atom_pairs` mirrors the
attribute of that name that `_reconstruct_build` assigns (build_store.py
line 369 writes `_q_failed_subjob_atom_pairs`, a distinct attribute from
the one `get_failed_subjob_and_atom_ids` reads). -/
structure BuildArtifact where
  build_artifact_dir : Option String
  failed_artifact_directories : List String
  failed_subjob_atom_pairs : List (Nat × Nat)
  q_failed_subjob_atom_pairs : List (Nat × Nat)
deriving DecidableEq, Repr

def BuildArtifact.get_failed_subjob_and_atom_ids (art : BuildArtifact) : List (Nat × Nat) :=
  art.failed_subjob_atom_pairs

/-- Modelled from the spec: `Build` (§3) — nullable store-assigned id, the
opaque request parameter mapping, the FSM current state with its timestamp
map, the scalar result fields, a nullable artifact record, the ordered
subjob mapping, the two subjob queues and the one-shot preparation coin.
(`app.master.build` is not under `src/`.) -/
structure Build where
  build_id : Option Nat
  build_parameters : List (String × String)
  state : BuildState
  transition_timestamps : FsmTimestamps
  artifacts_tar_file : Option String
  artifacts_zip_file : Option String
  error_message : Option String
  postbuild_tasks_are_finished : Bool
  setup_failures : Nat
  timing_file_path : Option String
  build_artifact : Option BuildArtifact
  all_subjobs_by_id : List (Nat × Subjob)
  unstarted_subjobs : BQueue Subjob
  finished_subjobs : BQueue Subjob
  preparation_coin_spent : Bool
deriving DecidableEq, Repr

/-- Modelled from the spec: a freshly constructed `Build` (§3, §4.1) — no id
yet, FSM in `QUEUED` with the current state's timestamp set (wall clock is
abstracted to `0`), empty collections, coin unspent.  Every field that
matters to the store claims is overwritten by `_reconstruct_build`. -/
def Build.new (params : List (String × String)) : Build :=
  { build_id := none
    build_parameters := params
    state := BuildState.QUEUED
    transition_timestamps :=
      { queued := some 0, preparing := none, prepared := none, building := none,
        finished := none, canceled := none, error := none }
    artifacts_tar_file := none
    artifacts_zip_file := none
    error_message := none
    postbuild_tasks_are_finished := false
    setup_failures := 0
    timing_file_path := none
    build_artifact := none
    all_subjobs_by_id := []
    unstarted_subjobs := { maxsize := 0, items := [] }
    finished_subjobs := { maxsize := 0, items := [] }
    preparation_coin_spent := false }

/-! ### Persisted schema rows (§6, `app.database.schema`) -/

structure BuildRow where
  build_id : Nat
  completed : Bool
  artifacts_tar_file : Option String
  artifacts_zip_file : Option String
  error_message : Option String
  postbuild_tasks_are_finished : Bool
  setup_failures : Nat
  timing_file_path : Option String
  build_artifact_dir : Option String
  build_parameters : List (String × String)
  state : BuildState
  queued_ts : Option Nat
  preparing_ts : Option Nat
  prepared_ts : Option Nat
  building_ts : Option Nat
  finished_ts : Option Nat
  canceled_ts : Option Nat
  error_ts : Option Nat
deriving DecidableEq, Repr

structure FailedArtifactDirectoryRow where
  build_id : Nat
  failed_artifact_directory : String
deriving DecidableEq, Repr

structure FailedSubjobAtomPairRow where
  build_id : Nat
  subjob_id : Nat
  atom_id : Nat
deriving DecidableEq, Repr

structure SubjobRow where
  subjob_id : Nat
  build_id : Nat
  completed : Bool
deriving DecidableEq, Repr

structure AtomRow where
  atom_id : Nat
  build_id : Nat
  subjob_id : Nat
  command_string : String
  expected_time : Option Int
  actual_time : Option Int
  exit_code : Option Int
  state : String
deriving DecidableEq, Repr

/-- The committed relational state.  `next_build_id` models the generated
primary key of the build table (1-based). -/
structure Database where
  builds : List BuildRow
  failed_artifact_directories : List FailedArtifactDirectoryRow
  failed_subjob_atom_pairs : List FailedSubjobAtomPairRow
  subjobs : List SubjobRow
  atoms : List AtomRow
  next_build_id : Nat
deriving DecidableEq, Repr

/-- One SQLAlchemy session operation performed by the store's child-table
persistence code: `session.add(...)` of a child row, `query(...).delete()`
filtered by build id on one child table, or `session.commit()`. -/
inductive DbOp
  | insDir (r : FailedArtifactDirectoryRow)
  | insPair (r : FailedSubjobAtomPairRow)
  | insSubjob (r : SubjobRow)
  | insAtom (r : AtomRow)
  | delDirs (build_id : Nat)
  | delPairs (build_id : Nat)
  | delSubjobs (build_id : Nat)
  | delAtoms (build_id : Nat)
  | commit
deriving DecidableEq, Repr

/-- A session: committed database plus pending (unflushed) inserts. -/
structure Session where
  db : Database
  pending : List DbOp
deriving DecidableEq, Repr

/-- Apply a pending insert to the committed database (non-inserts are inert;
deletes never sit in `pending` because they execute immediately). -/
def applyIns (db : Database) : DbOp → Database
  | DbOp.insDir r =>
      { db with failed_artifact_directories := db.failed_artifact_directories ++ [r] }
  | DbOp.insPair r =>
      { db with failed_subjob_atom_pairs := db.failed_subjob_atom_pairs ++ [r] }
  | DbOp.insSubjob r => { db with subjobs := db.subjobs ++ [r] }
  | DbOp.insAtom r => { db with atoms := db.atoms ++ [r] }
  | _ => db

/-- Flush pending inserts into the database (`session.commit()` /
autoflush; there is no rollback anywhere in the store, so flush and commit
coincide observationally). -/
def Session.flush (s : Session) : Session :=
  { db := s.pending.foldl applyIns s.db, pending := [] }

/-- Execute one session operation.  A delete autoflushes first, so pending
inserts on the same table would be caught by it — exactly the hazard the
store's interleaved commits exist to avoid. -/
def runOp (s : Session) : DbOp → Session
  | DbOp.commit => s.flush
  | DbOp.delDirs id =>
      let f := s.flush
      let db2 := { f.db with failed_artifact_directories := f.db.failed_artifact_directories.filter (fun r => !(r.build_id == id)) }
      { f with db := db2 }
  | DbOp.delPairs id =>
      let f := s.flush
      let db2 := { f.db with failed_subjob_atom_pairs := f.db.failed_subjob_atom_pairs.filter (fun r => !(r.build_id == id)) }
      { f with db := db2 }
  | DbOp.delSubjobs id =>
      let f := s.flush
      let db2 := { f.db with subjobs := f.db.subjobs.filter (fun r => !(r.build_id == id)) }
      { f with db := db2 }
  | DbOp.delAtoms id =>
      let f := s.flush
      let db2 := { f.db with atoms := f.db.atoms.filter (fun r => !(r.build_id == id)) }
      { f with db := db2 }
  | op => { s with pending := s.pending ++ [op] }

def runOps (s : Session) (ops : List DbOp) : Session :=
  ops.foldl runOp s

/-! ### BuildStore serialization (`_store_build` / `_update_build`) -/

/-- The build row serialized by `_store_build` / written back by
`_update_build` (build_store.py lines 118-136 and 207-270): `completed`
is derived as `state == FINISHED`, the artifact directory is taken from the
nullable artifact record, parameters pass through JSON (dump/load round
trip on the opaque string mapping is modelled as the identity). -/
def buildRowOf (b : Build) (id : Nat) : BuildRow :=
  { build_id := id
    completed := b.state == BuildState.FINISHED
    artifacts_tar_file := b.artifacts_tar_file
    artifacts_zip_file := b.artifacts_zip_file
    error_message := b.error_message
    postbuild_tasks_are_finished := b.postbuild_tasks_are_finished
    setup_failures := b.setup_failures
    timing_file_path := b.timing_file_path
    build_artifact_dir :=
      match b.build_artifact with
      | none => none
      | some art => art.build_artifact_dir
    build_parameters := b.build_parameters
    state := b.state
    queued_ts := b.transition_timestamps.queued
    preparing_ts := b.transition_timestamps.preparing
    prepared_ts := b.transition_timestamps.prepared
    building_ts := b.transition_timestamps.building
    finished_ts := b.transition_timestamps.finished
    canceled_ts := b.transition_timestamps.canceled
    error_ts := b.transition_timestamps.error }

def atomRowOf (a : Atom) (build_id subjob_id : Nat) : AtomRow :=
  { atom_id := a.id
    build_id := build_id
    subjob_id := subjob_id
    command_string := a.command_string
    expected_time := a.expected_time
    actual_time := a.actual_time
    exit_code := a.exit_code
    state := a.state }

def dirRowsOf (art : BuildArtifact) (id : Nat) : List FailedArtifactDirectoryRow :=
  art.failed_artifact_directories.map
    (fun d => { build_id := id, failed_artifact_directory := d })

def pairRowsOf (art : BuildArtifact) (id : Nat) : List FailedSubjobAtomPairRow :=
  (art.get_failed_subjob_and_atom_ids).map
    (fun pr => { build_id := id, subjob_id := pr.1, atom_id := pr.2 })

def subjobRowsOf (entries : List (Nat × Subjob)) (id : Nat) : List SubjobRow :=
  entries.map (fun p => { subjob_id := p.1, build_id := id, completed := p.2.completed })

def atomRowsOf (entries : List (Nat × Subjob)) (id : Nat) : List AtomRow :=
  entries.flatMap (fun p => p.2.atoms.map (fun a => atomRowOf a id p.1))

/-- The `session.add` calls for the failed-artifact-directory rows
(build_store.py lines 144-151): nothing when the build has no artifact. -/
def dirInsertOps (b : Build) (id : Nat) : List DbOp :=
  match b.build_artifact with
  | none => []
  | some art => (dirRowsOf art id).map DbOp.insDir

/-- The `session.add` calls for the failed-(subjob, atom)-pair rows
(build_store.py lines 153-161). -/
def pairInsertOps (b : Build) (id : Nat) : List DbOp :=
  match b.build_artifact with
  | none => []
  | some art => (pairRowsOf art id).map DbOp.insPair

/-- The `session.add` calls for subjob and atom rows, in program order: each
subjob row followed by its atoms' rows (build_store.py lines 163-186 and
284-307; the atom row's `subjob_id` column is the owning dict key). -/
def subjobAtomInsertOps (entries : List (Nat × Subjob)) (id : Nat) : List DbOp :=
  entries.flatMap (fun p =>
    DbOp.insSubjob { subjob_id := p.1, build_id := id, completed := p.2.completed } ::
      p.2.atoms.map (fun a => DbOp.insAtom (atomRowOf a id p.1)))

/-- `BuildStore._store_build` (lines 106-189): add the build row, commit to
obtain the generated id, add all child rows, commit again. -/
def storeBuildOnSession (s : Session) (b : Build) : Session × Nat :=
  let s1 := s.flush
  let id := s1.db.next_build_id
  let db2 := { s1.db with builds := s1.db.builds ++ [buildRowOf b id], next_build_id := id + 1 }
  let s2 : Session := { db := db2, pending := [] }
  let s3 := runOps s2 (dirInsertOps b id ++ pairInsertOps b id ++
    subjobAtomInsertOps b.all_subjobs_by_id id)
  (s3.flush, id)

/-- The child-table session operations of `BuildStore._update_build`
(lines 224-307) in program order: for each of the two artifact-derived
tables (only when the build has an artifact record) a delete filtered by
build id, a commit, then the fresh inserts; then the subjob and atom
deletes, one commit, and the fresh subjob/atom inserts (left uncommitted —
the method's docstring defers the final commit to the caller). -/
def updateChildOps (b : Build) (id : Nat) : List DbOp :=
  (match b.build_artifact with
   | none => []
   | some _ => DbOp.delDirs id :: DbOp.commit :: dirInsertOps b id) ++
  (match b.build_artifact with
   | none => []
   | some _ => DbOp.delPairs id :: DbOp.commit :: pairInsertOps b id) ++
  (DbOp.delSubjobs id :: DbOp.delAtoms id :: DbOp.commit ::
    subjobAtomInsertOps b.all_subjobs_by_id id)

/-- The store's failure signals: `ItemNotFoundError`, the `IncompleteBuild`
exception, and the `KeyError` that escapes `_reconstruct_build` when a
subjob row has no atom rows. -/
inductive StoreError
  | itemNotFound
  | incompleteBuild
  | keyError
deriving DecidableEq, Repr

/-- `BuildStore._update_build` (lines 191-307): query the build row (a query
autoflushes the session); a missing row — including the `build_id is None`
case, whose filter matches nothing — raises `ItemNotFoundError`; otherwise
overwrite every scalar column of the row and run the child-table
clear-and-rewrite operations. -/
def updateBuildOnSession (s : Session) (b : Build) : Except StoreError Session :=
  match b.build_id with
  | none => Except.error StoreError.itemNotFound
  | some id =>
    let sf := s.flush
    match sf.db.builds.find? (fun r => r.build_id == id) with
    | none => Except.error StoreError.itemNotFound
    | some _ =>
      let db2 := { sf.db with builds := sf.db.builds.map (fun r => if r.build_id == id then buildRowOf b id else r) }
      let sf2 : Session := { sf with db := db2 }
      Except.ok (runOps sf2 (updateChildOps b id))

/-! ### Ordered-dict model (`OrderedDict` keyed association list) -/

/-- Ordered-dict assignment `d[k] = v`: replace in place if the key exists,
else append. -/
def odInsert {κ α : Type} [BEq κ] (l : List (κ × α)) (k : κ) (v : α) : List (κ × α) :=
  match l with
  | [] => [(k, v)]
  | p :: rest => if p.1 == k then (k, v) :: rest else p :: odInsert rest k v

/-- Ordered-dict lookup `d.get(k)`. -/
def odLookup {κ α : Type} [BEq κ] (l : List (κ × α)) (k : κ) : Option α :=
  match l with
  | [] => none
  | p :: rest => if p.1 == k then some p.2 else odLookup rest k

/-! ### BuildStore reconstruction (`_reconstruct_build`) -/

/-- An atom rebuilt from its row (`Atom(command_string, expected_time,
actual_time, exit_code, state, atom_id, subjob_id)`, build_store.py lines
376-384; the subjob back-reference is not an `Atom` field in the spec's
data model §3). -/
def mkAtom (r : AtomRow) : Atom :=
  { id := r.atom_id
    command_string := r.command_string
    expected_time := r.expected_time
    actual_time := r.actual_time
    exit_code := r.exit_code
    state := r.state }

/-- The `atoms_by_subjob_id` grouping (lines 373-384): key `k` is present
exactly when some atom row carries it, and maps to those rows' atoms in row
order.  An absent key is the `KeyError` on line 388. -/
def atomsFor (atomRows : List AtomRow) (k : Nat) : Option (List Atom) :=
  let l := atomRows.filter (fun r => r.subjob_id == k)
  if l.isEmpty then none else some (l.map mkAtom)

/-- One iteration of the subjob-dict rebuild loop (lines 386-394): the
subjob row becomes a `Subjob` constructed with the enclosing build id, its
atoms attached after construction (`KeyError` when the grouping lacks its
key) and `completed` taken from the row, assigned into the ordered dict
keyed by the row's subjob id. -/
def subjobStep (bid : Nat) (atRows : List AtomRow) (acc : List (Nat × Subjob))
    (r : SubjobRow) : Except StoreError (List (Nat × Subjob)) :=
  match atomsFor atRows r.subjob_id with
  | none => Except.error StoreError.keyError
  | some atoms =>
      Except.ok (odInsert acc r.subjob_id
        { build_id := bid, subjob_id := r.subjob_id, atoms := atoms,
          completed := r.completed })

/-- The subjob-dict rebuild loop over all subjob rows. -/
def buildSubjobDict (bid : Nat) (sjRows : List SubjobRow) (atRows : List AtomRow) :
    Except StoreError (List (Nat × Subjob)) :=
  sjRows.foldlM (subjobStep bid atRows) []

/-- The queue-placement loop (lines 396-403): two queues bounded by the
subjob count; completed subjobs are `put` into the finished queue, the rest
into the unstarted queue, in dict order.  Returns `(unstarted, finished)`. -/
def partitionSubjobs (subjobs : List (Nat × Subjob)) : BQueue Subjob × BQueue Subjob :=
  subjobs.foldl
    (fun qs p => if p.2.completed then (qs.1, qs.2.put p.2) else (qs.1.put p.2, qs.2))
    ({ maxsize := subjobs.length, items := [] }, { maxsize := subjobs.length, items := [] })

/-- The `Build` object that `_reconstruct_build` assembles once the build
row and the rebuilt subjob dict are in hand (build_store.py lines 326-409):
a fresh `Build` over the deserialized parameters, scalar fields overwritten
from the row, the FSM timestamp map and current state force-restored, the
artifact record rebuilt from the failure rows (the pairs land in the stray
`_q_failed_subjob_atom_pairs` attribute, line 369), the subjob dict and its
queue partition installed, and the preparation coin spent iff the persisted
build was complete. -/
def assembleBuild (db : Database) (build_id : Nat) (row : BuildRow)
    (subjobDict : List (Nat × Subjob)) : Build :=
  let qs := partitionSubjobs subjobDict
  { Build.new row.build_parameters with
    build_id := some build_id
    artifacts_tar_file := row.artifacts_tar_file
    artifacts_zip_file := row.artifacts_zip_file
    error_message := row.error_message
    postbuild_tasks_are_finished := row.postbuild_tasks_are_finished
    setup_failures := row.setup_failures
    timing_file_path := row.timing_file_path
    transition_timestamps :=
      { queued := row.queued_ts, preparing := row.preparing_ts,
        prepared := row.prepared_ts, building := row.building_ts,
        finished := row.finished_ts, canceled := row.canceled_ts,
        error := row.error_ts }
    state := row.state
    build_artifact := some
      { build_artifact_dir := row.build_artifact_dir
        failed_artifact_directories :=
          (db.failed_artifact_directories.filter
            (fun r => r.build_id == build_id)).map
            (fun r => r.failed_artifact_directory)
        failed_subjob_atom_pairs := []
        q_failed_subjob_atom_pairs :=
          (db.failed_subjob_atom_pairs.filter
            (fun r => r.build_id == build_id)).map
            (fun r => (r.subjob_id, r.atom_id)) }
    all_subjobs_by_id := subjobDict
    unstarted_subjobs := qs.1
    finished_subjobs := qs.2
    preparation_coin_spent := row.completed }

/-- `BuildStore._reconstruct_build` (lines 309-409).  Returns `none` when no
build row matches (the Python function returns `None`); raises the
incomplete-build signal when the persisted build never finished and partial
loads are disallowed; otherwise rebuilds the full object graph.
`generate_project_type` / `job_config` are external collaborators with no
effect on any modelled field. -/
def reconstructBuild (s : Session) (build_id : Nat) (allow_incompleted_builds : Bool) :
    Except StoreError (Option Build) :=
  let db := s.flush.db
  match db.builds.find? (fun r => r.build_id == build_id) with
  | none => Except.ok none
  | some row =>
    if !allow_incompleted_builds && !row.completed then
      Except.error StoreError.incompleteBuild
    else
      match buildSubjobDict build_id
          (db.subjobs.filter (fun r => r.build_id == build_id))
          (db.atoms.filter (fun r => r.build_id == build_id)) with
      | Except.error e => Except.error e
      | Except.ok subjobDict =>
        Except.ok (some (assembleBuild db build_id row subjobDict))

/-! ### The BuildStore façade -/

/-- The tiered store: ordered in-memory cache plus the relational session. -/
structure BuildStore where
  session : Session
  cache : List (Nat × Build)
deriving DecidableEq, Repr

/-- `BuildStore.get` (lines 32-45): cache first; on a miss reconstruct from
the database and, when a build came back, insert it into the cache. -/
def BuildStore.get (store : BuildStore) (build_id : Nat)
    (allow_incompleted_builds : Bool) : Except StoreError (Option Build × BuildStore) :=
  match odLookup store.cache build_id with
  | some b => Except.ok (some b, store)
  | none =>
    match reconstructBuild store.session build_id allow_incompleted_builds with
    | Except.error e => Except.error e
    | Except.ok none => Except.ok (none, store)
    | Except.ok (some b) =>
        Except.ok (some b, { store with cache := odInsert store.cache build_id b })

/-- The loop body of `BuildStore.get_range` (lines 47-61): `get` each id,
`pass` on `IncompleteBuild`, let every other exception propagate, and
append whatever `get` returned — including `None`. -/
def getRangeGo (allow : Bool) :
    BuildStore → List Nat → List (Option Build) →
      Except StoreError (List (Option Build) × BuildStore)
  | store, [], acc => Except.ok (acc, store)
  | store, id :: rest, acc =>
    match store.get id allow with
    | Except.error StoreError.incompleteBuild => getRangeGo allow store rest acc
    | Except.error e => Except.error e
    | Except.ok (b, store2) => getRangeGo allow store2 rest (acc ++ [b])

/-- The 1-based id range `(start, end]` iterated by `get_range`
(`range(start + 1, end + 1)`). -/
def rangeIds (start stop : Nat) : List Nat :=
  List.range' (start + 1) (stop - start)

/-- `BuildStore.get_range (start, end, allow_incompleted_builds)`. -/
def BuildStore.get_range (store : BuildStore) (start stop : Nat) (allow : Bool) :
    Except StoreError (List (Option Build) × BuildStore) :=
  getRangeGo allow store (rangeIds start stop) []

/-- `BuildStore.add` (lines 63-70): persist via `_store_build`, assign the
generated id onto the build, insert it into the cache. -/
def BuildStore.add (store : BuildStore) (b : Build) : BuildStore × Build :=
  let sid := storeBuildOnSession store.session b
  let b2 := { b with build_id := some sid.2 }
  ({ session := sid.1, cache := odInsert store.cache sid.2 b2 }, b2)

/-- `BuildStore.save` (lines 72-81): delegate to `_update_build`; the build
is assumed to already exist in the database and the cache is not touched. -/
def BuildStore.save (store : BuildStore) (b : Build) : Except StoreError BuildStore :=
  match updateBuildOnSession store.session b with
  | Except.error e => Except.error e
  | Except.ok s => Except.ok { store with session := s }

/-- `BuildStore.count_all_builds` (lines 94-98): row count of the build
table (a query autoflushes). -/
def BuildStore.count_all_builds (store : BuildStore) : Nat :=
  store.session.flush.db.builds.length

def emptyDb : Database :=
  { builds := [], failed_artifact_directories := [], failed_subjob_atom_pairs := [],
    subjobs := [], atoms := [], next_build_id := 1 }

/-- A freshly constructed store over an empty database. -/
def freshStore : BuildStore :=
  { session := { db := emptyDb, pending := [] }, cache := [] }

/-! ### Cluster master orchestration (spec-modelled)

`app/master/cluster_master.py` is not under `src/`; only its unit tests
are.  The definitions below are modelled from spec §4.4/§4.3/§9.5 and
constrained by `src/test/unit/master/test_cluster_master.py`. -/

/-- The master's caller-facing failures: `ItemNotFoundError` and the
bad-request class (which the slave-selector checks raise as `ValueError`,
per `test_get_slave_raises_exception_on_invalid_arguments`). -/
inductive MasterError
  | itemNotFound
  | badRequest
deriving DecidableEq, Repr

/-- Modelled from the spec: `Slave` (§3) — master-assigned id, url (natural
secondary key), liveness flag, nullable current build back-reference and
executor capacity.  The shutdown-mode flag plays no part in any claim. -/
structure Slave where
  id : Nat
  url : String
  num_executors : Nat
  is_alive : Bool
  current_build_id : Option Nat
deriving DecidableEq, Repr

/-- Modelled from the spec: the master's slave registry (§4.4) — the by-url
ordered mapping, the monotone id counter (ids are never reused), and the
accumulated cancel requests issued to builds of re-announcing workers. -/
structure ClusterMaster where
  all_slaves_by_url : List (String × Slave)
  next_slave_id : Nat
  canceled_build_ids : List Nat
deriving DecidableEq, Repr

def freshMaster : ClusterMaster :=
  { all_slaves_by_url := [], next_slave_id := 1, canceled_build_ids := [] }

/-- Modelled from the spec: `connect_slave(url, num_executors)` (§4.4) — a
worker found alive with an assigned build has that build cancelled first;
in every case a brand-new slave identity is allocated, registered alive
under the url, and returned. -/
def ClusterMaster.connect_slave (m : ClusterMaster) (url : String)
    (num_executors : Nat) : ClusterMaster × Nat :=
  let m1 :=
    match odLookup m.all_slaves_by_url url with
    | some s =>
      match s.is_alive, s.current_build_id with
      | true, some bid => { m with canceled_build_ids := m.canceled_build_ids ++ [bid] }
      | _, _ => m
    | none => m
  let id := m1.next_slave_id
  let sl : Slave :=
    { id := id, url := url, num_executors := num_executors, is_alive := true,
      current_build_id := none }
  let m2 := { m1 with all_slaves_by_url := odInsert m1.all_slaves_by_url url sl, next_slave_id := id + 1 }
  (m2, id)

/-- Modelled from the spec: `get_slave(slave_id, slave_url)` (§4.4) —
providing both selectors or neither is a caller error; a single
non-matching selector is a not-found error; otherwise the matching slave
is returned (id lookup scans the registry, url lookup uses the by-url map). -/
def ClusterMaster.get_slave (m : ClusterMaster) (slave_id : Option Nat)
    (slave_url : Option String) : Except MasterError Slave :=
  match slave_id, slave_url with
  | some _, some _ => Except.error MasterError.badRequest
  | none, none => Except.error MasterError.badRequest
  | some sid, none =>
    match (m.all_slaves_by_url.map (fun p => p.2)).find? (fun s => s.id == sid) with
    | some s => Except.ok s
    | none => Except.error MasterError.itemNotFound
  | none, some u =>
    match odLookup m.all_slaves_by_url u with
    | some s => Except.ok s
    | none => Except.error MasterError.itemNotFound

/-- The three pagination configuration values
(`Configuration['pagination_offset'/'pagination_limit'/'pagination_max_limit']`). -/
structure PaginationConfig where
  offset_default : Nat
  limit_default : Nat
  limit_max : Nat
deriving DecidableEq, Repr

/-- Modelled from the spec: the shared pagination-index helper (§4.3),
with the v1 behaviour fixed by `test_builds_with_pagination_request`:
when neither offset nor limit is supplied the whole collection is
requested; otherwise missing values fall back to the configured defaults,
the limit is clamped to the configured maximum, and the resulting 1-based
id interval `(offset, offset+limit]` is intersected with the valid range. -/
def get_paginated_indices (offset limit : Option Nat) (count : Nat)
    (cfg : PaginationConfig) : Nat × Nat :=
  match offset, limit with
  | none, none => (0, count)
  | _, _ =>
    let off := offset.getD cfg.offset_default
    let lim := min (limit.getD cfg.limit_default) cfg.limit_max
    (off, min (off + lim) count)

/-- Modelled from the spec: the paginated slice of an ordered collection
(§4.3) — the items whose 1-based ids lie in the interval computed by
`get_paginated_indices`; this single helper underlies `get_builds`,
`Build.get_subjobs` and `Subjob.get_atoms`. -/
def paginate {α : Type} (items : List α) (offset limit : Option Nat)
    (cfg : PaginationConfig) : List α :=
  let se := get_paginated_indices offset limit items.length cfg
  (items.take se.2).drop se.1

/-- One observable call made by the master on the external scheduler /
build during result reporting. -/
inductive SchedulerEvent
  | completeSubjobAttempt (build_id subjob_id : Nat)
  | freeExecutor (slave_url : String)
deriving DecidableEq, Repr

/-- Modelled from the spec: `handle_result_reported_from_slave` (§4.4, §9.5)
— attempt the build's payload absorption / subjob completion (its outcome
is the external collaborator's, passed in as `absorb`), and in a
try/finally discipline notify the scheduler to free the slave's executor
on every exit path, only then re-raising any captured error. -/
def handle_result_reported_from_slave (slave_url : String)
    (build_id subjob_id : Nat) (absorb : Except String Unit) :
    List SchedulerEvent × Except String Unit :=
  let attempt := [SchedulerEvent.completeSubjobAttempt build_id subjob_id]
  let teardown := [SchedulerEvent.freeExecutor slave_url]
  match absorb with
  | Except.ok _ => (attempt ++ teardown, Except.ok ())
  | Except.error e => (attempt ++ teardown, Except.error e)

/-! ### The clear-and-rewrite trace predicate (claim C4) -/

/-- The four child tables of a build. -/
inductive ChildTable
  | dirs
  | pairs
  | subjobRows
  | atomRows
deriving DecidableEq, Repr

def opDelTable : DbOp → Option ChildTable
  | DbOp.delDirs _ => some ChildTable.dirs
  | DbOp.delPairs _ => some ChildTable.pairs
  | DbOp.delSubjobs _ => some ChildTable.subjobRows
  | DbOp.delAtoms _ => some ChildTable.atomRows
  | _ => none

def opInsTable : DbOp → Option ChildTable
  | DbOp.insDir _ => some ChildTable.dirs
  | DbOp.insPair _ => some ChildTable.pairs
  | DbOp.insSubjob _ => some ChildTable.subjobRows
  | DbOp.insAtom _ => some ChildTable.atomRows
  | _ => none

def isCommitOp : DbOp → Bool
  | DbOp.commit => true
  | _ => false

/-- Scan an operation trace for table `t`: an insert into `t` is legal only
after a delete on `t` whose transaction has been committed
(`deleted = true`, `committed = true`); a later delete reopens the
obligation until the next commit. -/
def clearThenInsertOk (t : ChildTable) : List DbOp → Bool → Bool → Bool
  | [], _, _ => true
  | op :: rest, deleted, committed =>
    if isCommitOp op then clearThenInsertOk t rest deleted true
    else if opDelTable op == some t then clearThenInsertOk t rest true false
    else if opInsTable op == some t then
      deleted && committed && clearThenInsertOk t rest deleted committed
    else clearThenInsertOk t rest deleted committed

/-! ### Projection and classification helpers used by the proofs -/

def isIns : DbOp → Bool
  | DbOp.insDir _ => true
  | DbOp.insPair _ => true
  | DbOp.insSubjob _ => true
  | DbOp.insAtom _ => true
  | _ => false

def insDirRows (l : List DbOp) : List FailedArtifactDirectoryRow :=
  l.filterMap (fun op => match op with | DbOp.insDir r => some r | _ => none)

def insPairRows (l : List DbOp) : List FailedSubjobAtomPairRow :=
  l.filterMap (fun op => match op with | DbOp.insPair r => some r | _ => none)

def insSubjobRows (l : List DbOp) : List SubjobRow :=
  l.filterMap (fun op => match op with | DbOp.insSubjob r => some r | _ => none)

def insAtomRows (l : List DbOp) : List AtomRow :=
  l.filterMap (fun op => match op with | DbOp.insAtom r => some r | _ => none)

/-- The failed-directory rows a build contributes (empty without an
artifact record). -/
def dirRowsOptOf (b : Build) (id : Nat) : List FailedArtifactDirectoryRow :=
  match b.build_artifact with
  | none => []
  | some art => dirRowsOf art id

/-- The failed-pair rows a build contributes (empty without an artifact
record). -/
def pairRowsOptOf (b : Build) (id : Nat) : List FailedSubjobAtomPairRow :=
  match b.build_artifact with
  | none => []
  | some art => pairRowsOf art id

/-- The subjob dict that reconstruction rebuilds from a build whose rows
were produced by `_store_build`: same keys in order, each subjob recreated
with the persisted build id, its original atoms and completed flag. -/
def reconSubjobEntries (bid : Nat) (entries : List (Nat × Subjob)) : List (Nat × Subjob) :=
  entries.map (fun p =>
    (p.1, { build_id := bid, subjob_id := p.1, atoms := p.2.atoms,
            completed := p.2.completed }))

/-- The value component of `BuildStore.get` (what the caller receives,
discarding the threaded store). -/
def loadResult (store : BuildStore) (id : Nat) (allow : Bool) :
    Except StoreError (Option Build) :=
  match store.get id allow with
  | Except.error e => Except.error e
  | Except.ok p => Except.ok p.1

def okPart : Except StoreError (Option Build) → Option (Option Build)
  | Except.ok ob => some ob
  | Except.error _ => none

/-- Whether a `get` outcome is survivable by `get_range`: a success or the
incomplete-build signal (which the loop's `except IncompleteBuild: pass`
swallows). -/
def isNonFatal : Except StoreError (Option Build) → Bool
  | Except.ok _ => true
  | Except.error StoreError.incompleteBuild => true
  | Except.error _ => false

/-! ### Concrete witness data -/

/-- A representative artifact record with failure entries. -/
def artW : BuildArtifact :=
  { build_artifact_dir := some "/a"
    failed_artifact_directories := ["d1", "d2"]
    failed_subjob_atom_pairs := [(1, 2)]
    q_failed_subjob_atom_pairs := [] }

/-- A representative not-yet-persisted build: two subjobs (one completed),
one atom each, an artifact record with failure entries. -/
def buildW : Build :=
  { Build.new [("branch", "main")] with
    state := BuildState.BUILDING
    transition_timestamps :=
      { queued := some 5, preparing := some 6, prepared := some 7, building := some 8,
        finished := none, canceled := none, error := none }
    artifacts_tar_file := some "t.tar"
    error_message := some "boom"
    setup_failures := 2
    build_artifact := some artW
    all_subjobs_by_id :=
      [(0, { build_id := 0, subjob_id := 0,
             atoms := [{ id := 1, command_string := "c1", expected_time := some 3,
                         actual_time := none, exit_code := none, state := "NOT_STARTED" }],
             completed := true }),
       (1, { build_id := 0, subjob_id := 1,
             atoms := [{ id := 1, command_string := "c2", expected_time := none,
                         actual_time := some 4, exit_code := some 0, state := "DONE" }],
             completed := false })] }

/-- `buildW` as it stands after having been added under id 1. -/
def buildW1 : Build := { buildW with build_id := some 1 }

/-- A build owning a subjob with an empty atom sequence. -/
def atomlessBuild : Build :=
  { Build.new [] with
    all_subjobs_by_id :=
      [(0, { build_id := 0, subjob_id := 0, atoms := [], completed := false })] }

/-- A store whose database holds build 1's row plus stale child rows for
builds 1 and 2 — the state `save` must clear-and-rewrite. -/
def storeW : BuildStore :=
  { session :=
      { db :=
          { builds := [buildRowOf buildW 1]
            failed_artifact_directories :=
              [{ build_id := 1, failed_artifact_directory := "stale" },
               { build_id := 2, failed_artifact_directory := "other" }]
            failed_subjob_atom_pairs := [{ build_id := 1, subjob_id := 9, atom_id := 9 }]
            subjobs := [{ subjob_id := 9, build_id := 1, completed := false },
                        { subjob_id := 1, build_id := 2, completed := true }]
            atoms := [{ atom_id := 9, build_id := 1, subjob_id := 9,
                        command_string := "old", expected_time := none,
                        actual_time := none, exit_code := none, state := "DONE" }]
            next_build_id := 3 }
        pending := [] }
    cache := [] }

/-- A store caching an incomplete (never-finished) build under id 1. -/
def cacheHitStore : BuildStore :=
  { freshStore with cache := [(1, Build.new [("k", "v")])] }

/-- The registry of the spec §8 example: slaves "a", "b", "c" connected in
order, receiving ids 1, 2, 3. -/
def masterW : ClusterMaster :=
  (((freshMaster.connect_slave "a" 10).1.connect_slave "b" 10).1.connect_slave "c" 10).1

/-- The pagination configuration of the unit tests: offset default 0,
limit default 5, maximum limit 10. -/
def cfgW : PaginationConfig :=
  { offset_default := 0, limit_default := 5, limit_max := 10 }

/-- The build that reconstruction produces for `buildW` after a restart. -/
def buildW5 : Build :=
  assembleBuild ((BuildStore.add freshStore buildW).1.session.flush.db) 1
    (buildRowOf buildW 1) (reconSubjobEntries 1 buildW.all_subjobs_by_id)

/-! ## Helper lemmas -/

theorem odLookup_odInsert_ne {κ α : Type} [BEq κ] [LawfulBEq κ]
    (l : List (κ × α)) (k k2 : κ) (v : α) (h : k2 ≠ k) :
    odLookup (odInsert l k v) k2 = odLookup l k2 := by
  have hk : (k == k2) = false := beq_eq_false_iff_ne.mpr (Ne.symm h)
  induction l with
  | nil => simp [odInsert, odLookup, hk]
  | cons p rest ih =>
    by_cases hp : (p.1 == k) = true
    · have hpk : p.1 = k := by simpa using hp
      simp [odInsert, odLookup, hp, hpk, hk]
    · simp [odInsert, odLookup, hp, ih]

theorem odInsert_of_fresh {κ α : Type} [BEq κ] [LawfulBEq κ]
    (l : List (κ × α)) (k : κ) (v : α) (h : ∀ p ∈ l, p.1 ≠ k) :
    odInsert l k v = l ++ [(k, v)] := by
  induction l with
  | nil => rfl
  | cons p rest ih =>
    have hp : p.1 ≠ k := h p (List.mem_cons_self p rest)
    have hrest : ∀ q ∈ rest, q.1 ≠ k := fun q hq => h q (List.mem_cons_of_mem p hq)
    simp [odInsert, beq_eq_false_iff_ne.mpr hp, ih hrest]

theorem flush_of_pending_nil (s : Session) (h : s.pending = []) : s.flush = s := by
  cases s with
  | mk db pending => cases h; rfl

theorem runOps_append (s : Session) (l1 l2 : List DbOp) :
    runOps s (l1 ++ l2) = runOps (runOps s l1) l2 := by
  simp [runOps, List.foldl_append]

theorem runOps_of_inserts (s : Session) (l : List DbOp) (h : ∀ op ∈ l, isIns op = true) :
    runOps s l = { s with pending := s.pending ++ l } := by
  induction l generalizing s with
  | nil => simp [runOps]
  | cons op rest ih =>
    have hop : isIns op = true := h op (List.mem_cons_self op rest)
    have hrest : ∀ op2 ∈ rest, isIns op2 = true :=
      fun op2 hm => h op2 (List.mem_cons_of_mem op hm)
    have hstep : runOp s op = { s with pending := s.pending ++ [op] } := by
      cases op <;> first | rfl | simp [isIns] at hop
    have : runOps s (op :: rest) = runOps (runOp s op) rest := rfl
    rw [this, hstep, ih _ hrest]
    simp

theorem foldl_applyIns_builds (l : List DbOp) (db : Database) :
    (l.foldl applyIns db).builds = db.builds := by
  induction l generalizing db with
  | nil => rfl
  | cons op rest ih => cases op <;> simp [applyIns, ih]

theorem foldl_applyIns_next (l : List DbOp) (db : Database) :
    (l.foldl applyIns db).next_build_id = db.next_build_id := by
  induction l generalizing db with
  | nil => rfl
  | cons op rest ih => cases op <;> simp [applyIns, ih]

theorem foldl_applyIns_dirs (l : List DbOp) (db : Database) :
    (l.foldl applyIns db).failed_artifact_directories =
      db.failed_artifact_directories ++ insDirRows l := by
  induction l generalizing db with
  | nil => simp [insDirRows]
  | cons op rest ih =>
    cases op <;> simp [applyIns, ih, insDirRows, List.filterMap_cons, List.append_assoc]

theorem foldl_applyIns_pairs (l : List DbOp) (db : Database) :
    (l.foldl applyIns db).failed_subjob_atom_pairs =
      db.failed_subjob_atom_pairs ++ insPairRows l := by
  induction l generalizing db with
  | nil => simp [insPairRows]
  | cons op rest ih =>
    cases op <;> simp [applyIns, ih, insPairRows, List.filterMap_cons, List.append_assoc]

theorem foldl_applyIns_subjobs (l : List DbOp) (db : Database) :
    (l.foldl applyIns db).subjobs = db.subjobs ++ insSubjobRows l := by
  induction l generalizing db with
  | nil => simp [insSubjobRows]
  | cons op rest ih =>
    cases op <;> simp [applyIns, ih, insSubjobRows, List.filterMap_cons, List.append_assoc]

theorem foldl_applyIns_atoms (l : List DbOp) (db : Database) :
    (l.foldl applyIns db).atoms = db.atoms ++ insAtomRows l := by
  induction l generalizing db with
  | nil => simp [insAtomRows]
  | cons op rest ih =>
    cases op <;> simp [applyIns, ih, insAtomRows, List.filterMap_cons, List.append_assoc]

theorem isIns_dirInsertOps (b : Build) (id : Nat) :
    ∀ op ∈ dirInsertOps b id, isIns op = true := by
  intro op hop
  unfold dirInsertOps at hop
  cases hb : b.build_artifact with
  | none => rw [hb] at hop; simp at hop
  | some art =>
    rw [hb] at hop
    obtain ⟨r, _, rfl⟩ := List.mem_map.mp hop
    rfl

theorem isIns_pairInsertOps (b : Build) (id : Nat) :
    ∀ op ∈ pairInsertOps b id, isIns op = true := by
  intro op hop
  unfold pairInsertOps at hop
  cases hb : b.build_artifact with
  | none => rw [hb] at hop; simp at hop
  | some art =>
    rw [hb] at hop
    obtain ⟨r, _, rfl⟩ := List.mem_map.mp hop
    rfl

theorem isIns_subjobAtomInsertOps (entries : List (Nat × Subjob)) (id : Nat) :
    ∀ op ∈ subjobAtomInsertOps entries id, isIns op = true := by
  intro op hop
  unfold subjobAtomInsertOps at hop
  obtain ⟨p, _, hm⟩ := List.mem_flatMap.mp hop
  rcases List.mem_cons.mp hm with h1 | h2
  · subst h1; rfl
  · obtain ⟨a, _, rfl⟩ := List.mem_map.mp h2
    rfl

theorem insDirRows_map_insDir (rows : List FailedArtifactDirectoryRow) :
    insDirRows (rows.map DbOp.insDir) = rows := by
  induction rows with
  | nil => rfl
  | cons r rest ih => simp [insDirRows, List.filterMap_cons] at ih ⊢; exact ih

theorem insPairRows_map_insPair (rows : List FailedSubjobAtomPairRow) :
    insPairRows (rows.map DbOp.insPair) = rows := by
  induction rows with
  | nil => rfl
  | cons r rest ih => simp [insPairRows, List.filterMap_cons] at ih ⊢; exact ih

theorem insDirRows_map_insPair (rows : List FailedSubjobAtomPairRow) :
    insDirRows (rows.map DbOp.insPair) = [] := by
  induction rows with
  | nil => rfl
  | cons r rest ih => simpa [insDirRows, List.filterMap_cons] using ih

theorem insPairRows_map_insDir (rows : List FailedArtifactDirectoryRow) :
    insPairRows (rows.map DbOp.insDir) = [] := by
  induction rows with
  | nil => rfl
  | cons r rest ih => simpa [insPairRows, List.filterMap_cons] using ih

theorem insSubjobRows_map_insDir (rows : List FailedArtifactDirectoryRow) :
    insSubjobRows (rows.map DbOp.insDir) = [] := by
  induction rows with
  | nil => rfl
  | cons r rest ih => simpa [insSubjobRows, List.filterMap_cons] using ih

theorem insSubjobRows_map_insPair (rows : List FailedSubjobAtomPairRow) :
    insSubjobRows (rows.map DbOp.insPair) = [] := by
  induction rows with
  | nil => rfl
  | cons r rest ih => simpa [insSubjobRows, List.filterMap_cons] using ih

theorem insAtomRows_map_insDir (rows : List FailedArtifactDirectoryRow) :
    insAtomRows (rows.map DbOp.insDir) = [] := by
  induction rows with
  | nil => rfl
  | cons r rest ih => simpa [insAtomRows, List.filterMap_cons] using ih

theorem insAtomRows_map_insPair (rows : List FailedSubjobAtomPairRow) :
    insAtomRows (rows.map DbOp.insPair) = [] := by
  induction rows with
  | nil => rfl
  | cons r rest ih => simpa [insAtomRows, List.filterMap_cons] using ih

theorem insSubjobRows_atomMap (atoms : List Atom) (id sid : Nat) :
    insSubjobRows (atoms.map (fun a => DbOp.insAtom (atomRowOf a id sid))) = [] := by
  induction atoms with
  | nil => rfl
  | cons a rest ih => simpa [insSubjobRows, List.filterMap_cons] using ih

theorem insAtomRows_atomMap (atoms : List Atom) (id sid : Nat) :
    insAtomRows (atoms.map (fun a => DbOp.insAtom (atomRowOf a id sid))) =
      atoms.map (fun a => atomRowOf a id sid) := by
  induction atoms with
  | nil => rfl
  | cons a rest ih => simp [insAtomRows, List.filterMap_cons] at ih ⊢; exact ih

theorem insDirRows_atomMap (atoms : List Atom) (id sid : Nat) :
    insDirRows (atoms.map (fun a => DbOp.insAtom (atomRowOf a id sid))) = [] := by
  induction atoms with
  | nil => rfl
  | cons a rest ih => simpa [insDirRows, List.filterMap_cons] using ih

theorem insPairRows_atomMap (atoms : List Atom) (id sid : Nat) :
    insPairRows (atoms.map (fun a => DbOp.insAtom (atomRowOf a id sid))) = [] := by
  induction atoms with
  | nil => rfl
  | cons a rest ih => simpa [insPairRows, List.filterMap_cons] using ih

theorem insSubjobRows_append (l1 l2 : List DbOp) :
    insSubjobRows (l1 ++ l2) = insSubjobRows l1 ++ insSubjobRows l2 := by
  simp [insSubjobRows, List.filterMap_append]

theorem insAtomRows_append (l1 l2 : List DbOp) :
    insAtomRows (l1 ++ l2) = insAtomRows l1 ++ insAtomRows l2 := by
  simp [insAtomRows, List.filterMap_append]

theorem insDirRows_append (l1 l2 : List DbOp) :
    insDirRows (l1 ++ l2) = insDirRows l1 ++ insDirRows l2 := by
  simp [insDirRows, List.filterMap_append]

theorem insPairRows_append (l1 l2 : List DbOp) :
    insPairRows (l1 ++ l2) = insPairRows l1 ++ insPairRows l2 := by
  simp [insPairRows, List.filterMap_append]

theorem insSubjobRows_cons_ins (r : SubjobRow) (l : List DbOp) :
    insSubjobRows (DbOp.insSubjob r :: l) = r :: insSubjobRows l := by
  simp [insSubjobRows, List.filterMap_cons]

theorem insAtomRows_cons_sj (r : SubjobRow) (l : List DbOp) :
    insAtomRows (DbOp.insSubjob r :: l) = insAtomRows l := by
  simp [insAtomRows, List.filterMap_cons]

theorem insDirRows_cons_sj (r : SubjobRow) (l : List DbOp) :
    insDirRows (DbOp.insSubjob r :: l) = insDirRows l := by
  simp [insDirRows, List.filterMap_cons]

theorem insPairRows_cons_sj (r : SubjobRow) (l : List DbOp) :
    insPairRows (DbOp.insSubjob r :: l) = insPairRows l := by
  simp [insPairRows, List.filterMap_cons]

theorem sja_cons (p : Nat × Subjob) (rest : List (Nat × Subjob)) (id : Nat) :
    subjobAtomInsertOps (p :: rest) id =
      (DbOp.insSubjob { subjob_id := p.1, build_id := id, completed := p.2.completed } ::
        p.2.atoms.map (fun a => DbOp.insAtom (atomRowOf a id p.1))) ++
        subjobAtomInsertOps rest id := by
  simp [subjobAtomInsertOps]

theorem insSubjobRows_sja (entries : List (Nat × Subjob)) (id : Nat) :
    insSubjobRows (subjobAtomInsertOps entries id) = subjobRowsOf entries id := by
  induction entries with
  | nil => rfl
  | cons p rest ih =>
    rw [sja_cons, insSubjobRows_append, insSubjobRows_cons_ins, insSubjobRows_atomMap, ih]
    simp [subjobRowsOf]

theorem insAtomRows_sja (entries : List (Nat × Subjob)) (id : Nat) :
    insAtomRows (subjobAtomInsertOps entries id) = atomRowsOf entries id := by
  induction entries with
  | nil => rfl
  | cons p rest ih =>
    rw [sja_cons, insAtomRows_append, insAtomRows_cons_sj, insAtomRows_atomMap, ih]
    simp [atomRowsOf]

theorem insDirRows_sja (entries : List (Nat × Subjob)) (id : Nat) :
    insDirRows (subjobAtomInsertOps entries id) = [] := by
  induction entries with
  | nil => rfl
  | cons p rest ih =>
    rw [sja_cons, insDirRows_append, insDirRows_cons_sj, insDirRows_atomMap, ih]
    rfl

theorem insPairRows_sja (entries : List (Nat × Subjob)) (id : Nat) :
    insPairRows (subjobAtomInsertOps entries id) = [] := by
  induction entries with
  | nil => rfl
  | cons p rest ih =>
    rw [sja_cons, insPairRows_append, insPairRows_cons_sj, insPairRows_atomMap, ih]
    rfl

theorem insDirRows_dirInsertOps (b : Build) (id : Nat) :
    insDirRows (dirInsertOps b id) = dirRowsOptOf b id := by
  unfold dirInsertOps dirRowsOptOf
  cases b.build_artifact with
  | none => rfl
  | some art => exact insDirRows_map_insDir (dirRowsOf art id)

theorem insPairRows_pairInsertOps (b : Build) (id : Nat) :
    insPairRows (pairInsertOps b id) = pairRowsOptOf b id := by
  unfold pairInsertOps pairRowsOptOf
  cases b.build_artifact with
  | none => rfl
  | some art => exact insPairRows_map_insPair (pairRowsOf art id)

theorem dbEqOfFields (d1 d2 : Database)
    (h1 : d1.builds = d2.builds)
    (h2 : d1.failed_artifact_directories = d2.failed_artifact_directories)
    (h3 : d1.failed_subjob_atom_pairs = d2.failed_subjob_atom_pairs)
    (h4 : d1.subjobs = d2.subjobs)
    (h5 : d1.atoms = d2.atoms)
    (h6 : d1.next_build_id = d2.next_build_id) : d1 = d2 := by
  cases d1
  cases d2
  cases h1
  cases h2
  cases h3
  cases h4
  cases h5
  cases h6
  rfl

theorem sessionEqOfFields (s1 s2 : Session)
    (h1 : s1.db = s2.db) (h2 : s1.pending = s2.pending) : s1 = s2 := by
  cases s1
  cases s2
  cases h1
  cases h2
  rfl

/-- A flush, expressed component-wise through the insert projections. -/
theorem flush_components (s : Session) :
    s.flush =
      { db := { builds := s.db.builds
                failed_artifact_directories :=
                  s.db.failed_artifact_directories ++ insDirRows s.pending
                failed_subjob_atom_pairs :=
                  s.db.failed_subjob_atom_pairs ++ insPairRows s.pending
                subjobs := s.db.subjobs ++ insSubjobRows s.pending
                atoms := s.db.atoms ++ insAtomRows s.pending
                next_build_id := s.db.next_build_id },
        pending := [] } := by
  unfold Session.flush
  refine sessionEqOfFields _ _ ?_ rfl
  exact dbEqOfFields _ _ (foldl_applyIns_builds _ _) (foldl_applyIns_dirs _ _)
    (foldl_applyIns_pairs _ _) (foldl_applyIns_subjobs _ _) (foldl_applyIns_atoms _ _)
    (foldl_applyIns_next _ _)

theorem filter_not_filter {α : Type} (l : List α) (p : α → Bool) :
    (l.filter (fun a => !(p a))).filter p = [] := by
  induction l with
  | nil => rfl
  | cons a rest ih => by_cases h : p a <;> simp [List.filter_cons, h, ih]

theorem mem_dirRowsOf (art : BuildArtifact) (id : Nat) (r : FailedArtifactDirectoryRow)
    (h : r ∈ dirRowsOf art id) : r.build_id = id := by
  obtain ⟨d, _, rfl⟩ := List.mem_map.mp h
  rfl

theorem mem_pairRowsOf (art : BuildArtifact) (id : Nat) (r : FailedSubjobAtomPairRow)
    (h : r ∈ pairRowsOf art id) : r.build_id = id := by
  obtain ⟨pr, _, rfl⟩ := List.mem_map.mp h
  rfl

theorem mem_subjobRowsOf (entries : List (Nat × Subjob)) (id : Nat) (r : SubjobRow)
    (h : r ∈ subjobRowsOf entries id) : r.build_id = id := by
  obtain ⟨p, _, rfl⟩ := List.mem_map.mp h
  rfl

theorem mem_atomRowsOf (entries : List (Nat × Subjob)) (id : Nat) (r : AtomRow)
    (h : r ∈ atomRowsOf entries id) : r.build_id = id := by
  obtain ⟨p, _, hm⟩ := List.mem_flatMap.mp h
  obtain ⟨a, _, rfl⟩ := List.mem_map.mp hm
  rfl

theorem filter_id_of_fresh_dirs (old : List FailedArtifactDirectoryRow)
    (new : List FailedArtifactDirectoryRow) (id : Nat)
    (hnew : ∀ r ∈ new, r.build_id = id) :
    ((old.filter (fun r => !(r.build_id == id)) ++ new).filter
      (fun r => r.build_id == id)) = new := by
  rw [List.filter_append, filter_not_filter]
  simp only [List.nil_append]
  exact List.filter_eq_self.mpr (fun r hr => by simp [hnew r hr])

theorem filter_id_of_fresh_pairs (old : List FailedSubjobAtomPairRow)
    (new : List FailedSubjobAtomPairRow) (id : Nat)
    (hnew : ∀ r ∈ new, r.build_id = id) :
    ((old.filter (fun r => !(r.build_id == id)) ++ new).filter
      (fun r => r.build_id == id)) = new := by
  rw [List.filter_append, filter_not_filter]
  simp only [List.nil_append]
  exact List.filter_eq_self.mpr (fun r hr => by simp [hnew r hr])

theorem filter_id_of_fresh_subjobs (old : List SubjobRow) (new : List SubjobRow) (id : Nat)
    (hnew : ∀ r ∈ new, r.build_id = id) :
    ((old.filter (fun r => !(r.build_id == id)) ++ new).filter
      (fun r => r.build_id == id)) = new := by
  rw [List.filter_append, filter_not_filter]
  simp only [List.nil_append]
  exact List.filter_eq_self.mpr (fun r hr => by simp [hnew r hr])

theorem filter_id_of_fresh_atoms (old : List AtomRow) (new : List AtomRow) (id : Nat)
    (hnew : ∀ r ∈ new, r.build_id = id) :
    ((old.filter (fun r => !(r.build_id == id)) ++ new).filter
      (fun r => r.build_id == id)) = new := by
  rw [List.filter_append, filter_not_filter]
  simp only [List.nil_append]
  exact List.filter_eq_self.mpr (fun r hr => by simp [hnew r hr])

theorem insDirRows_pairInsertOps (b : Build) (id : Nat) :
    insDirRows (pairInsertOps b id) = [] := by
  unfold pairInsertOps
  cases b.build_artifact with
  | none => rfl
  | some art => exact insDirRows_map_insPair _

theorem insPairRows_dirInsertOps (b : Build) (id : Nat) :
    insPairRows (dirInsertOps b id) = [] := by
  unfold dirInsertOps
  cases b.build_artifact with
  | none => rfl
  | some art => exact insPairRows_map_insDir _

theorem insSubjobRows_dirInsertOps (b : Build) (id : Nat) :
    insSubjobRows (dirInsertOps b id) = [] := by
  unfold dirInsertOps
  cases b.build_artifact with
  | none => rfl
  | some art => exact insSubjobRows_map_insDir _

theorem insSubjobRows_pairInsertOps (b : Build) (id : Nat) :
    insSubjobRows (pairInsertOps b id) = [] := by
  unfold pairInsertOps
  cases b.build_artifact with
  | none => rfl
  | some art => exact insSubjobRows_map_insPair _

theorem insAtomRows_dirInsertOps (b : Build) (id : Nat) :
    insAtomRows (dirInsertOps b id) = [] := by
  unfold dirInsertOps
  cases b.build_artifact with
  | none => rfl
  | some art => exact insAtomRows_map_insDir _

theorem insAtomRows_pairInsertOps (b : Build) (id : Nat) :
    insAtomRows (pairInsertOps b id) = [] := by
  unfold pairInsertOps
  cases b.build_artifact with
  | none => rfl
  | some art => exact insAtomRows_map_insPair _

theorem isIns_storeChildOps (b : Build) (id : Nat) :
    ∀ op ∈ dirInsertOps b id ++ pairInsertOps b id ++
        subjobAtomInsertOps b.all_subjobs_by_id id, isIns op = true := by
  intro op hop
  rcases List.mem_append.mp hop with h1 | h2
  · rcases List.mem_append.mp h1 with ha | hb
    · exact isIns_dirInsertOps b id op ha
    · exact isIns_pairInsertOps b id op hb
  · exact isIns_subjobAtomInsertOps _ id op h2

/-- The database produced by `_store_build` on a fresh store: one build row
under the generated id 1, plus exactly the build's child rows. -/
theorem storeBuildOnSession_fresh (b : Build) :
    storeBuildOnSession { db := emptyDb, pending := [] } b =
      ({ db := { builds := [buildRowOf b 1]
                 failed_artifact_directories := dirRowsOptOf b 1
                 failed_subjob_atom_pairs := pairRowsOptOf b 1
                 subjobs := subjobRowsOf b.all_subjobs_by_id 1
                 atoms := atomRowsOf b.all_subjobs_by_id 1
                 next_build_id := 2 },
         pending := [] }, 1) := by
  have h1 : storeBuildOnSession { db := emptyDb, pending := [] } b =
      ((runOps
          { db := { builds := [buildRowOf b 1], failed_artifact_directories := [],
                    failed_subjob_atom_pairs := [], subjobs := [], atoms := [],
                    next_build_id := 2 },
            pending := [] }
          (dirInsertOps b 1 ++ pairInsertOps b 1 ++
            subjobAtomInsertOps b.all_subjobs_by_id 1)).flush, 1) := rfl
  rw [h1, runOps_of_inserts _ _ (isIns_storeChildOps b 1), flush_components]
  refine congrArg (fun s => (s, 1)) ?_
  refine sessionEqOfFields _ _ ?_ rfl
  refine dbEqOfFields _ _ rfl ?_ ?_ ?_ ?_ rfl
  · simp [insDirRows_append, insDirRows_dirInsertOps, insDirRows_pairInsertOps,
      insDirRows_sja]
  · simp [insPairRows_append, insPairRows_pairInsertOps, insPairRows_dirInsertOps,
      insPairRows_sja]
  · simp [insSubjobRows_append, insSubjobRows_dirInsertOps, insSubjobRows_pairInsertOps,
      insSubjobRows_sja]
  · simp [insAtomRows_append, insAtomRows_dirInsertOps, insAtomRows_pairInsertOps,
      insAtomRows_sja]

theorem runOps_cons (s : Session) (op : DbOp) (l : List DbOp) :
    runOps s (op :: l) = runOps (runOp s op) l := rfl

theorem runOp_commit (s : Session) : runOp s DbOp.commit = s.flush := rfl

theorem runOp_delDirs (s : Session) (id : Nat) :
    runOp s (DbOp.delDirs id) =
      { db := { s.flush.db with failed_artifact_directories :=
          s.flush.db.failed_artifact_directories.filter (fun r => !(r.build_id == id)) },
        pending := [] } := rfl

theorem runOp_delPairs (s : Session) (id : Nat) :
    runOp s (DbOp.delPairs id) =
      { db := { s.flush.db with failed_subjob_atom_pairs :=
          s.flush.db.failed_subjob_atom_pairs.filter (fun r => !(r.build_id == id)) },
        pending := [] } := rfl

theorem runOp_delSubjobs (s : Session) (id : Nat) :
    runOp s (DbOp.delSubjobs id) =
      { db := { s.flush.db with subjobs :=
          s.flush.db.subjobs.filter (fun r => !(r.build_id == id)) },
        pending := [] } := rfl

theorem runOp_delAtoms (s : Session) (id : Nat) :
    runOp s (DbOp.delAtoms id) =
      { db := { s.flush.db with atoms :=
          s.flush.db.atoms.filter (fun r => !(r.build_id == id)) },
        pending := [] } := rfl

/-- The dirs segment of `_update_build`: delete, commit, re-add; the fresh
rows stay pending. -/
theorem runOps_dirSeg (s : Session) (b : Build) (id : Nat) :
    runOps s (DbOp.delDirs id :: DbOp.commit :: dirInsertOps b id) =
      { db := { s.flush.db with failed_artifact_directories :=
          s.flush.db.failed_artifact_directories.filter (fun r => !(r.build_id == id)) },
        pending := dirInsertOps b id } := by
  rw [runOps_cons, runOps_cons, runOp_delDirs, runOp_commit, flush_of_pending_nil _ rfl,
    runOps_of_inserts _ _ (isIns_dirInsertOps b id)]
  simp

theorem runOps_pairSeg (s : Session) (b : Build) (id : Nat) :
    runOps s (DbOp.delPairs id :: DbOp.commit :: pairInsertOps b id) =
      { db := { s.flush.db with failed_subjob_atom_pairs :=
          s.flush.db.failed_subjob_atom_pairs.filter (fun r => !(r.build_id == id)) },
        pending := pairInsertOps b id } := by
  rw [runOps_cons, runOps_cons, runOp_delPairs, runOp_commit, flush_of_pending_nil _ rfl,
    runOps_of_inserts _ _ (isIns_pairInsertOps b id)]
  simp

theorem runOps_subSeg (s : Session) (b : Build) (id : Nat) :
    runOps s (DbOp.delSubjobs id :: DbOp.delAtoms id :: DbOp.commit ::
        subjobAtomInsertOps b.all_subjobs_by_id id) =
      { db := { s.flush.db with
          subjobs := s.flush.db.subjobs.filter (fun r => !(r.build_id == id)),
          atoms := s.flush.db.atoms.filter (fun r => !(r.build_id == id)) },
        pending := subjobAtomInsertOps b.all_subjobs_by_id id } := by
  rw [runOps_cons, runOps_cons, runOps_cons, runOp_delSubjobs, runOp_delAtoms,
    flush_of_pending_nil _ rfl, runOp_commit, flush_of_pending_nil _ rfl,
    runOps_of_inserts _ _ (isIns_subjobAtomInsertOps b.all_subjobs_by_id id)]
  simp

/-- The committed database after `_update_build`'s child operations and the
caller's final commit: every child table ends as its old rows minus the
build's, followed by the build's current in-memory rows. -/
theorem runOps_updateChildOps (s0 : Session) (h0 : s0.pending = []) (b : Build)
    (art : BuildArtifact) (id : Nat) (hart : b.build_artifact = some art) :
    (runOps s0 (updateChildOps b id)).flush.db =
      { s0.db with
        failed_artifact_directories :=
          s0.db.failed_artifact_directories.filter (fun r => !(r.build_id == id)) ++
            dirRowsOf art id
        failed_subjob_atom_pairs :=
          s0.db.failed_subjob_atom_pairs.filter (fun r => !(r.build_id == id)) ++
            pairRowsOf art id
        subjobs := s0.db.subjobs.filter (fun r => !(r.build_id == id)) ++
          subjobRowsOf b.all_subjobs_by_id id
        atoms := s0.db.atoms.filter (fun r => !(r.build_id == id)) ++
          atomRowsOf b.all_subjobs_by_id id } := by
  have hops : updateChildOps b id =
      (DbOp.delDirs id :: DbOp.commit :: dirInsertOps b id) ++
      ((DbOp.delPairs id :: DbOp.commit :: pairInsertOps b id) ++
        (DbOp.delSubjobs id :: DbOp.delAtoms id :: DbOp.commit ::
          subjobAtomInsertOps b.all_subjobs_by_id id)) := by
    simp [updateChildOps, hart]
  rw [hops, runOps_append, runOps_append, runOps_dirSeg,
    flush_of_pending_nil s0 h0, runOps_pairSeg, runOps_subSeg,
    flush_components, flush_components, flush_components]
  refine dbEqOfFields _ _ ?_ ?_ ?_ ?_ ?_ ?_ <;>
    simp [insDirRows_dirInsertOps, insPairRows_dirInsertOps, insSubjobRows_dirInsertOps,
      insAtomRows_dirInsertOps, insDirRows_pairInsertOps, insPairRows_pairInsertOps,
      insSubjobRows_pairInsertOps, insAtomRows_pairInsertOps, insDirRows_sja,
      insPairRows_sja, insSubjobRows_sja, insAtomRows_sja, dirRowsOptOf, pairRowsOptOf,
      hart]

theorem cti_nil (t : ChildTable) (d c : Bool) : clearThenInsertOk t [] d c = true := rfl

theorem cti_cons_commit (t : ChildTable) (l : List DbOp) (d c : Bool) :
    clearThenInsertOk t (DbOp.commit :: l) d c = clearThenInsertOk t l d true := rfl

/-- Any trace with no insert on table `t` passes the scan for `t`. -/
theorem cti_no_ins (t : ChildTable) (l : List DbOp)
    (h : ∀ op ∈ l, opInsTable op ≠ some t) :
    ∀ d c, clearThenInsertOk t l d c = true := by
  induction l with
  | nil => intro d c; rfl
  | cons op rest ih =>
    intro d c
    have hop : opInsTable op ≠ some t := h op (List.mem_cons_self op rest)
    have hrest : ∀ op2 ∈ rest, opInsTable op2 ≠ some t :=
      fun op2 hm => h op2 (List.mem_cons_of_mem op hm)
    by_cases hc : isCommitOp op = true
    · simp [clearThenInsertOk, hc, ih hrest]
    · by_cases hd : opDelTable op = some t
      · simp [clearThenInsertOk, hc, hd, ih hrest]
      · simp [clearThenInsertOk, hc, hd, hop, ih hrest]

/-- After a committed delete on `t`, a trace with no further delete on `t`
passes the scan for `t`. -/
theorem cti_no_del (t : ChildTable) (l : List DbOp)
    (h : ∀ op ∈ l, opDelTable op ≠ some t) :
    clearThenInsertOk t l true true = true := by
  induction l with
  | nil => rfl
  | cons op rest ih =>
    have hop : opDelTable op ≠ some t := h op (List.mem_cons_self op rest)
    have hrest : ∀ op2 ∈ rest, opDelTable op2 ≠ some t :=
      fun op2 hm => h op2 (List.mem_cons_of_mem op hm)
    by_cases hc : isCommitOp op = true
    · simp [clearThenInsertOk, hc, ih hrest]
    · by_cases hi : opInsTable op = some t
      · simp [clearThenInsertOk, hc, hop, hi, ih hrest]
      · simp [clearThenInsertOk, hc, hop, hi, ih hrest]

/-- A segment of foreign operations (no commit, nothing touching `t`) does
not change the scan state for `t`. -/
theorem cti_skip_seg (t : ChildTable) (seg rest : List DbOp) (d c : Bool)
    (h : ∀ op ∈ seg, isCommitOp op = false ∧ opDelTable op ≠ some t ∧
      opInsTable op ≠ some t) :
    clearThenInsertOk t (seg ++ rest) d c = clearThenInsertOk t rest d c := by
  induction seg with
  | nil => rfl
  | cons op seg2 ih =>
    obtain ⟨hc, hd, hi⟩ := h op (List.mem_cons_self op seg2)
    have hseg2 : ∀ op2 ∈ seg2, isCommitOp op2 = false ∧ opDelTable op2 ≠ some t ∧
        opInsTable op2 ≠ some t :=
      fun op2 hm => h op2 (List.mem_cons_of_mem op hm)
    simp [clearThenInsertOk, hc, hd, hi, ih hseg2]

theorem dirInsertOps_class (b : Build) (id : Nat) :
    ∀ op ∈ dirInsertOps b id, isCommitOp op = false ∧ opDelTable op = none ∧
      opInsTable op = some ChildTable.dirs := by
  intro op hop
  unfold dirInsertOps at hop
  cases hb : b.build_artifact with
  | none => rw [hb] at hop; simp at hop
  | some art =>
    rw [hb] at hop
    obtain ⟨r, _, rfl⟩ := List.mem_map.mp hop
    exact ⟨rfl, rfl, rfl⟩

theorem pairInsertOps_class (b : Build) (id : Nat) :
    ∀ op ∈ pairInsertOps b id, isCommitOp op = false ∧ opDelTable op = none ∧
      opInsTable op = some ChildTable.pairs := by
  intro op hop
  unfold pairInsertOps at hop
  cases hb : b.build_artifact with
  | none => rw [hb] at hop; simp at hop
  | some art =>
    rw [hb] at hop
    obtain ⟨r, _, rfl⟩ := List.mem_map.mp hop
    exact ⟨rfl, rfl, rfl⟩

theorem sja_class (entries : List (Nat × Subjob)) (id : Nat) :
    ∀ op ∈ subjobAtomInsertOps entries id, isCommitOp op = false ∧
      opDelTable op = none ∧ (opInsTable op = some ChildTable.subjobRows ∨
        opInsTable op = some ChildTable.atomRows) := by
  intro op hop
  unfold subjobAtomInsertOps at hop
  obtain ⟨p, _, hm⟩ := List.mem_flatMap.mp hop
  rcases List.mem_cons.mp hm with h1 | h2
  · subst h1; exact ⟨rfl, rfl, Or.inl rfl⟩
  · obtain ⟨a, _, rfl⟩ := List.mem_map.mp h2
    exact ⟨rfl, rfl, Or.inr rfl⟩

/-- Every child table's trace discipline holds on `_update_build`'s
operations: each table is deleted and that delete committed before any of
its fresh rows are inserted. -/
theorem updateChildOps_cti (b : Build) (id : Nat) (t : ChildTable) :
    clearThenInsertOk t (updateChildOps b id) false false = true := by
  have hdirSkip : ∀ t2 : ChildTable, t2 ≠ ChildTable.dirs →
      ∀ op ∈ dirInsertOps b id, isCommitOp op = false ∧ opDelTable op ≠ some t2 ∧
        opInsTable op ≠ some t2 := by
    intro t2 ht2 op hop
    obtain ⟨h1, h2, h3⟩ := dirInsertOps_class b id op hop
    refine ⟨h1, by simp [h2], by simp [h3, Ne.symm ht2]⟩
  have hpairSkip : ∀ t2 : ChildTable, t2 ≠ ChildTable.pairs →
      ∀ op ∈ pairInsertOps b id, isCommitOp op = false ∧ opDelTable op ≠ some t2 ∧
        opInsTable op ≠ some t2 := by
    intro t2 ht2 op hop
    obtain ⟨h1, h2, h3⟩ := pairInsertOps_class b id op hop
    refine ⟨h1, by simp [h2], by simp [h3, Ne.symm ht2]⟩
  have hsjaNoDel : ∀ t2 : ChildTable,
      ∀ op ∈ subjobAtomInsertOps b.all_subjobs_by_id id, opDelTable op ≠ some t2 := by
    intro t2 op hop
    obtain ⟨_, h2, _⟩ := sja_class b.all_subjobs_by_id id op hop
    simp [h2]
  have hdirsNoDel : ∀ op ∈ dirInsertOps b id, ∀ t2 : ChildTable,
      opDelTable op ≠ some t2 := by
    intro op hop t2
    obtain ⟨_, h2, _⟩ := dirInsertOps_class b id op hop
    simp [h2]
  have hpairsNoDel : ∀ op ∈ pairInsertOps b id, ∀ t2 : ChildTable,
      opDelTable op ≠ some t2 := by
    intro op hop t2
    obtain ⟨_, h2, _⟩ := pairInsertOps_class b id op hop
    simp [h2]
  cases hb : b.build_artifact with
  | none =>
    have hops : updateChildOps b id = DbOp.delSubjobs id :: DbOp.delAtoms id ::
        DbOp.commit :: subjobAtomInsertOps b.all_subjobs_by_id id := by
      simp [updateChildOps, hb]
    rw [hops]
    cases t with
    | dirs =>
      refine cti_no_ins _ _ ?_ false false
      intro op hop
      rcases hop with _ | ⟨_, hop⟩
      · simp [opInsTable]
      · rcases hop with _ | ⟨_, hop⟩
        · simp [opInsTable]
        · rcases hop with _ | ⟨_, hop⟩
          · simp [opInsTable]
          · obtain ⟨_, _, h3⟩ := sja_class b.all_subjobs_by_id id op hop
            rcases h3 with h3 | h3 <;> simp [h3]
    | pairs =>
      refine cti_no_ins _ _ ?_ false false
      intro op hop
      rcases hop with _ | ⟨_, hop⟩
      · simp [opInsTable]
      · rcases hop with _ | ⟨_, hop⟩
        · simp [opInsTable]
        · rcases hop with _ | ⟨_, hop⟩
          · simp [opInsTable]
          · obtain ⟨_, _, h3⟩ := sja_class b.all_subjobs_by_id id op hop
            rcases h3 with h3 | h3 <;> simp [h3]
    | subjobRows =>
      simp only [clearThenInsertOk, isCommitOp, opDelTable, opInsTable]
      exact cti_no_del _ _ (hsjaNoDel ChildTable.subjobRows)
    | atomRows =>
      simp only [clearThenInsertOk, isCommitOp, opDelTable, opInsTable]
      exact cti_no_del _ _ (hsjaNoDel ChildTable.atomRows)
  | some art =>
    have hops : updateChildOps b id =
        DbOp.delDirs id :: DbOp.commit :: (dirInsertOps b id ++
          (DbOp.delPairs id :: DbOp.commit :: (pairInsertOps b id ++
            (DbOp.delSubjobs id :: DbOp.delAtoms id :: DbOp.commit ::
              subjobAtomInsertOps b.all_subjobs_by_id id)))) := by
      simp [updateChildOps, hb]
    rw [hops]
    cases t with
    | dirs =>
      simp only [clearThenInsertOk, isCommitOp, opDelTable, opInsTable]
      refine cti_no_del _ _ ?_
      intro op hop
      rcases List.mem_append.mp hop with h1 | h2
      · exact hdirsNoDel op h1 ChildTable.dirs
      · rcases h2 with _ | ⟨_, h2⟩
        · simp [opDelTable]
        · rcases h2 with _ | ⟨_, h2⟩
          · simp [opDelTable]
          · rcases List.mem_append.mp h2 with h3 | h4
            · exact hpairsNoDel op h3 ChildTable.dirs
            · rcases h4 with _ | ⟨_, h4⟩
              · simp [opDelTable]
              · rcases h4 with _ | ⟨_, h4⟩
                · simp [opDelTable]
                · rcases h4 with _ | ⟨_, h4⟩
                  · simp [opDelTable]
                  · exact hsjaNoDel ChildTable.dirs op h4
    | pairs =>
      rw [show clearThenInsertOk ChildTable.pairs (DbOp.delDirs id :: DbOp.commit ::
          (dirInsertOps b id ++ (DbOp.delPairs id :: DbOp.commit ::
            (pairInsertOps b id ++ (DbOp.delSubjobs id :: DbOp.delAtoms id ::
              DbOp.commit :: subjobAtomInsertOps b.all_subjobs_by_id id)))))
          false false =
        clearThenInsertOk ChildTable.pairs (dirInsertOps b id ++
          (DbOp.delPairs id :: DbOp.commit :: (pairInsertOps b id ++
            (DbOp.delSubjobs id :: DbOp.delAtoms id :: DbOp.commit ::
              subjobAtomInsertOps b.all_subjobs_by_id id)))) false true from rfl]
      rw [cti_skip_seg _ _ _ _ _ (hdirSkip ChildTable.pairs (by simp))]
      simp only [clearThenInsertOk, isCommitOp, opDelTable, opInsTable]
      refine cti_no_del _ _ ?_
      intro op hop
      rcases List.mem_append.mp hop with h1 | h2
      · exact hpairsNoDel op h1 ChildTable.pairs
      · rcases h2 with _ | ⟨_, h2⟩
        · simp [opDelTable]
        · rcases h2 with _ | ⟨_, h2⟩
          · simp [opDelTable]
          · rcases h2 with _ | ⟨_, h2⟩
            · simp [opDelTable]
            · exact hsjaNoDel ChildTable.pairs op h2
    | subjobRows =>
      rw [show clearThenInsertOk ChildTable.subjobRows (DbOp.delDirs id :: DbOp.commit ::
          (dirInsertOps b id ++ (DbOp.delPairs id :: DbOp.commit ::
            (pairInsertOps b id ++ (DbOp.delSubjobs id :: DbOp.delAtoms id ::
              DbOp.commit :: subjobAtomInsertOps b.all_subjobs_by_id id)))))
          false false =
        clearThenInsertOk ChildTable.subjobRows (dirInsertOps b id ++
          (DbOp.delPairs id :: DbOp.commit :: (pairInsertOps b id ++
            (DbOp.delSubjobs id :: DbOp.delAtoms id :: DbOp.commit ::
              subjobAtomInsertOps b.all_subjobs_by_id id)))) false true from rfl]
      rw [cti_skip_seg _ _ _ _ _ (hdirSkip ChildTable.subjobRows (by simp))]
      rw [show clearThenInsertOk ChildTable.subjobRows (DbOp.delPairs id :: DbOp.commit ::
          (pairInsertOps b id ++ (DbOp.delSubjobs id :: DbOp.delAtoms id ::
            DbOp.commit :: subjobAtomInsertOps b.all_subjobs_by_id id))) false true =
        clearThenInsertOk ChildTable.subjobRows (pairInsertOps b id ++
          (DbOp.delSubjobs id :: DbOp.delAtoms id :: DbOp.commit ::
            subjobAtomInsertOps b.all_subjobs_by_id id)) false true from rfl]
      rw [cti_skip_seg _ _ _ _ _ (hpairSkip ChildTable.subjobRows (by simp))]
      simp only [clearThenInsertOk, isCommitOp, opDelTable, opInsTable]
      exact cti_no_del _ _ (hsjaNoDel ChildTable.subjobRows)
    | atomRows =>
      rw [show clearThenInsertOk ChildTable.atomRows (DbOp.delDirs id :: DbOp.commit ::
          (dirInsertOps b id ++ (DbOp.delPairs id :: DbOp.commit ::
            (pairInsertOps b id ++ (DbOp.delSubjobs id :: DbOp.delAtoms id ::
              DbOp.commit :: subjobAtomInsertOps b.all_subjobs_by_id id)))))
          false false =
        clearThenInsertOk ChildTable.atomRows (dirInsertOps b id ++
          (DbOp.delPairs id :: DbOp.commit :: (pairInsertOps b id ++
            (DbOp.delSubjobs id :: DbOp.delAtoms id :: DbOp.commit ::
              subjobAtomInsertOps b.all_subjobs_by_id id)))) false true from rfl]
      rw [cti_skip_seg _ _ _ _ _ (hdirSkip ChildTable.atomRows (by simp))]
      rw [show clearThenInsertOk ChildTable.atomRows (DbOp.delPairs id :: DbOp.commit ::
          (pairInsertOps b id ++ (DbOp.delSubjobs id :: DbOp.delAtoms id ::
            DbOp.commit :: subjobAtomInsertOps b.all_subjobs_by_id id))) false true =
        clearThenInsertOk ChildTable.atomRows (pairInsertOps b id ++
          (DbOp.delSubjobs id :: DbOp.delAtoms id :: DbOp.commit ::
            subjobAtomInsertOps b.all_subjobs_by_id id)) false true from rfl]
      rw [cti_skip_seg _ _ _ _ _ (hpairSkip ChildTable.atomRows (by simp))]
      simp only [clearThenInsertOk, isCommitOp, opDelTable, opInsTable]
      exact cti_no_del _ _ (hsjaNoDel ChildTable.atomRows)

theorem partition_go (l : List (Nat × Subjob)) (n : Nat) (u f : List Subjob) :
    l.foldl
      (fun (qs : BQueue Subjob × BQueue Subjob) (p : Nat × Subjob) =>
        if p.2.completed then (qs.1, qs.2.put p.2) else (qs.1.put p.2, qs.2))
      (({ maxsize := n, items := u } : BQueue Subjob),
       ({ maxsize := n, items := f } : BQueue Subjob)) =
      (({ maxsize := n, items := u ++ (l.map Prod.snd).filter (fun sj => !sj.completed) } : BQueue Subjob),
       ({ maxsize := n, items := f ++ (l.map Prod.snd).filter (fun sj => sj.completed) } : BQueue Subjob)) := by
  induction l generalizing u f with
  | nil => simp
  | cons p rest ih =>
    simp only [BQueue.put] at ih ⊢
    by_cases h : p.2.completed <;>
      simp [List.foldl_cons, h, List.filter_cons, ih, List.append_assoc]

theorem partitionSubjobs_eq (l : List (Nat × Subjob)) :
    partitionSubjobs l =
      ({ maxsize := l.length,
         items := (l.map Prod.snd).filter (fun sj => !sj.completed) },
       { maxsize := l.length,
         items := (l.map Prod.snd).filter (fun sj => sj.completed) }) := by
  unfold partitionSubjobs
  simpa using partition_go l l.length [] []

theorem mkAtom_atomRowOf (a : Atom) (id sid : Nat) : mkAtom (atomRowOf a id sid) = a := rfl

theorem atomRowsOf_cons (p : Nat × Subjob) (rest : List (Nat × Subjob)) (id : Nat) :
    atomRowsOf (p :: rest) id =
      p.2.atoms.map (fun a => atomRowOf a id p.1) ++ atomRowsOf rest id := by
  simp [atomRowsOf]

theorem atomRowsOf_filter_not_mem (entries : List (Nat × Subjob)) (id k : Nat)
    (h : ∀ p ∈ entries, p.1 ≠ k) :
    (atomRowsOf entries id).filter (fun r => r.subjob_id == k) = [] := by
  induction entries with
  | nil => rfl
  | cons p rest ih =>
    have hp : p.1 ≠ k := h p (List.mem_cons_self p rest)
    have hrest : ∀ q ∈ rest, q.1 ≠ k := fun q hq => h q (List.mem_cons_of_mem p hq)
    rw [atomRowsOf_cons, List.filter_append, ih hrest]
    simp only [List.append_nil]
    refine List.filter_eq_nil_iff.mpr ?_
    intro r hr
    obtain ⟨a, _, rfl⟩ := List.mem_map.mp hr
    simp [atomRowOf, hp]

theorem atomRowsOf_filter_mem (entries : List (Nat × Subjob)) (id : Nat)
    (hnd : (entries.map Prod.fst).Nodup) :
    ∀ k sj, (k, sj) ∈ entries →
      (atomRowsOf entries id).filter (fun r => r.subjob_id == k) =
        sj.atoms.map (fun a => atomRowOf a id k) := by
  induction entries with
  | nil => intro k sj h; simp at h
  | cons p rest ih =>
    intro k sj hmem
    have hnd2 : p.1 ∉ rest.map Prod.fst ∧ (rest.map Prod.fst).Nodup := by
      simpa [List.nodup_cons] using hnd
    rcases List.mem_cons.mp hmem with h1 | h2
    · cases h1
      have hnotmem : k ∉ rest.map Prod.fst := by simpa using hnd2.1
      rw [atomRowsOf_cons, List.filter_append]
      have htail : (atomRowsOf rest id).filter (fun r => r.subjob_id == k) = [] := by
        refine atomRowsOf_filter_not_mem rest id k ?_
        intro q hq hqk
        apply hnotmem
        rw [← hqk]
        exact List.mem_map_of_mem Prod.fst hq
      have hhead : ((k, sj).2.atoms.map (fun a => atomRowOf a id (k, sj).1)).filter
          (fun r => r.subjob_id == k) =
          (k, sj).2.atoms.map (fun a => atomRowOf a id k) := by
        refine List.filter_eq_self.mpr ?_
        intro r hr
        obtain ⟨a, _, rfl⟩ := List.mem_map.mp hr
        simp [atomRowOf]
      rw [htail, hhead, List.append_nil]
    · have hk : k ∈ rest.map Prod.fst := List.mem_map.mpr ⟨(k, sj), h2, rfl⟩
      have hp : p.1 ≠ k := fun he => hnd2.1 (he ▸ hk)
      rw [atomRowsOf_cons, List.filter_append]
      have hhead : (p.2.atoms.map (fun a => atomRowOf a id p.1)).filter
          (fun r => r.subjob_id == k) = [] := by
        refine List.filter_eq_nil_iff.mpr ?_
        intro r hr
        obtain ⟨a, _, rfl⟩ := List.mem_map.mp hr
        simp [atomRowOf, hp]
      rw [hhead, ih hnd2.2 k sj h2, List.nil_append]

theorem map_mkAtom_atomRowOf (l : List Atom) (id sid : Nat) :
    l.map (fun a => mkAtom (atomRowOf a id sid)) = l := by
  induction l with
  | nil => rfl
  | cons a rest ih => simp [ih, mkAtom_atomRowOf]

theorem atomsFor_of_mem (entries : List (Nat × Subjob)) (id : Nat)
    (hnd : (entries.map Prod.fst).Nodup) (k : Nat) (sj : Subjob)
    (hmem : (k, sj) ∈ entries) (hne : sj.atoms ≠ []) :
    atomsFor (atomRowsOf entries id) k = some sj.atoms := by
  unfold atomsFor
  rw [atomRowsOf_filter_mem entries id hnd k sj hmem]
  cases ha : sj.atoms with
  | nil => exact absurd ha hne
  | cons a rest2 =>
    show (if (List.map (fun a2 => atomRowOf a2 id k) (a :: rest2)).isEmpty = true then none
      else some (List.map mkAtom (List.map (fun a2 => atomRowOf a2 id k) (a :: rest2)))) =
      some (a :: rest2)
    have h2 : List.map mkAtom (List.map (fun a2 => atomRowOf a2 id k) (a :: rest2)) =
        a :: rest2 := by
      rw [List.map_map]
      have h3 := map_mkAtom_atomRowOf (a :: rest2) id k
      simpa [Function.comp] using h3
    have hempty : (List.map (fun a2 => atomRowOf a2 id k) (a :: rest2)).isEmpty = false := rfl
    rw [hempty]
    show some (List.map mkAtom (List.map (fun a2 => atomRowOf a2 id k) (a :: rest2))) =
      some (a :: rest2)
    exact congrArg some h2

theorem buildSubjobDict_go (bid : Nat) (atRows : List AtomRow)
    (entries2 : List (Nat × Subjob)) (acc : List (Nat × Subjob))
    (hAF : ∀ p ∈ entries2, atomsFor atRows p.1 = some p.2.atoms)
    (hnd : (entries2.map Prod.fst).Nodup)
    (hfresh : ∀ p ∈ entries2, ∀ q ∈ acc, q.1 ≠ p.1) :
    (subjobRowsOf entries2 bid).foldlM (subjobStep bid atRows) acc =
      Except.ok (acc ++ reconSubjobEntries bid entries2) := by
  induction entries2 generalizing acc with
  | nil => simp [subjobRowsOf, reconSubjobEntries, List.foldlM_nil]; rfl
  | cons p rest ih =>
    have hAFp : atomsFor atRows p.1 = some p.2.atoms :=
      hAF p (List.mem_cons_self p rest)
    have hAFrest : ∀ q ∈ rest, atomsFor atRows q.1 = some q.2.atoms :=
      fun q hq => hAF q (List.mem_cons_of_mem p hq)
    have hnd2 : p.1 ∉ rest.map Prod.fst ∧ (rest.map Prod.fst).Nodup := by
      simpa [List.nodup_cons] using hnd
    have hfp : ∀ q ∈ acc, q.1 ≠ p.1 := hfresh p (List.mem_cons_self p rest)
    have hrows : subjobRowsOf (p :: rest) bid =
        { subjob_id := p.1, build_id := bid, completed := p.2.completed } ::
          subjobRowsOf rest bid := by
      simp [subjobRowsOf]
    rw [hrows, List.foldlM_cons]
    have hstep : subjobStep bid atRows acc
        { subjob_id := p.1, build_id := bid, completed := p.2.completed } =
        Except.ok (acc ++ [(p.1, { build_id := bid, subjob_id := p.1, atoms := p.2.atoms, completed := p.2.completed })]) := by
      unfold subjobStep
      rw [hAFp]
      show Except.ok (odInsert acc p.1 { build_id := bid, subjob_id := p.1, atoms := p.2.atoms, completed := p.2.completed }) = _
      rw [odInsert_of_fresh acc p.1 _ hfp]
    rw [hstep]
    have hbind : (Except.ok (acc ++ [(p.1, { build_id := bid, subjob_id := p.1, atoms := p.2.atoms, completed := p.2.completed })]) : Except StoreError (List (Nat × Subjob))) >>= (fun acc2 => (subjobRowsOf rest bid).foldlM (subjobStep bid atRows) acc2) = (subjobRowsOf rest bid).foldlM (subjobStep bid atRows) (acc ++ [(p.1, { build_id := bid, subjob_id := p.1, atoms := p.2.atoms, completed := p.2.completed })]) := rfl
    rw [hbind]
    have hfresh2 : ∀ q ∈ rest, ∀ q2 ∈ acc ++ [(p.1, { build_id := bid, subjob_id := p.1, atoms := p.2.atoms, completed := p.2.completed })], q2.1 ≠ q.1 := by
      intro q hq q2 hq2
      rcases List.mem_append.mp hq2 with ha | hb
      · exact hfresh q (List.mem_cons_of_mem p hq) q2 ha
      · have hq2e : q2 = (p.1, { build_id := bid, subjob_id := p.1, atoms := p.2.atoms, completed := p.2.completed }) := by
          simpa using hb
        subst hq2e
        intro he
        apply hnd2.1
        rw [he]
        exact List.mem_map_of_mem Prod.fst hq
    rw [ih _ hAFrest hnd2.2 hfresh2]
    simp [reconSubjobEntries]

/-- Reconstructing the subjob dict from rows generated by `_store_build`
succeeds and yields the original keys with the original atoms and
completed flags, provided keys are distinct (the `OrderedDict`
representation invariant) and every subjob owns at least one atom. -/
theorem buildSubjobDict_roundtrip (bid : Nat) (entries : List (Nat × Subjob))
    (hnd : (entries.map Prod.fst).Nodup)
    (hne : ∀ p ∈ entries, p.2.atoms ≠ []) :
    buildSubjobDict bid (subjobRowsOf entries bid) (atomRowsOf entries bid) =
      Except.ok (reconSubjobEntries bid entries) := by
  unfold buildSubjobDict
  have hAF : ∀ p ∈ entries, atomsFor (atomRowsOf entries bid) p.1 = some p.2.atoms := by
    intro p hp
    exact atomsFor_of_mem entries bid hnd p.1 p.2 (by simpa using hp) (hne p hp)
  simpa using buildSubjobDict_go bid (atomRowsOf entries bid) entries [] hAF hnd
    (by intro p _ q hq; simp at hq)

theorem isNonFatal_error (e : StoreError) :
    isNonFatal (Except.error e : Except StoreError (Option Build)) = true ↔
      e = StoreError.incompleteBuild := by
  cases e <;> simp [isNonFatal]

/-- A successful `get` leaves the session untouched and changes at most the
cache entry of the requested id. -/
theorem get_session_preserved (store : BuildStore) (id : Nat) (allow : Bool)
    (ob : Option Build) (st2 : BuildStore)
    (h : store.get id allow = Except.ok (ob, st2)) :
    st2.session = store.session ∧
      ∀ k, k ≠ id → odLookup st2.cache k = odLookup store.cache k := by
  unfold BuildStore.get at h
  cases hc : odLookup store.cache id with
  | some b =>
    rw [hc] at h
    simp only [Except.ok.injEq, Prod.mk.injEq] at h
    rw [← h.2]
    exact ⟨rfl, fun k _ => rfl⟩
  | none =>
    rw [hc] at h
    cases hr : reconstructBuild store.session id allow with
    | error e => rw [hr] at h; simp at h
    | ok ob2 =>
      rw [hr] at h
      cases ob2 with
      | none =>
        simp only [Except.ok.injEq, Prod.mk.injEq] at h
        rw [← h.2]
        exact ⟨rfl, fun k _ => rfl⟩
      | some b =>
        simp only [Except.ok.injEq, Prod.mk.injEq] at h
        rw [← h.2]
        refine ⟨rfl, fun k hk => ?_⟩
        exact odLookup_odInsert_ne store.cache id k b hk

/-- The value a `get` returns depends only on the session and the cache
entry of the requested id. -/
theorem loadResult_congr (s1 s2 : BuildStore) (id : Nat) (allow : Bool)
    (hs : s1.session = s2.session) (hc : odLookup s1.cache id = odLookup s2.cache id) :
    loadResult s1 id allow = loadResult s2 id allow := by
  unfold loadResult BuildStore.get
  rw [hc, hs]
  cases odLookup s2.cache id with
  | some b => rfl
  | none =>
    cases reconstructBuild s2.session id allow with
    | error e => rfl
    | ok ob =>
      cases ob with
      | none => rfl
      | some b => rfl

theorem getRangeGo_step (allow : Bool) (store : BuildStore) (id : Nat)
    (rest : List Nat) (acc : List (Option Build)) :
    getRangeGo allow store (id :: rest) acc =
      (match store.get id allow with
       | Except.error StoreError.incompleteBuild => getRangeGo allow store rest acc
       | Except.error e => Except.error e
       | Except.ok (b, store2) => getRangeGo allow store2 rest (acc ++ [b])) := rfl

/-- When every id in the list loads without a fatal error (relative to the
starting store), the `get_range` loop succeeds and returns, in order, one
entry per non-skipped id: the `get` value — a build or `None` — for ids
whose load succeeds, skipping exactly the incomplete-build ids. -/
theorem getRangeGo_ok (allow : Bool) (store0 : BuildStore) :
    ∀ (ids : List Nat) (store : BuildStore) (acc : List (Option Build)),
      store.session = store0.session →
      (∀ id ∈ ids, odLookup store.cache id = odLookup store0.cache id) →
      ids.Nodup →
      (∀ id ∈ ids, isNonFatal (loadResult store0 id allow) = true) →
      ∃ store2, getRangeGo allow store ids acc =
        Except.ok (acc ++ ids.filterMap (fun id => okPart (loadResult store0 id allow)),
          store2) := by
  intro ids
  induction ids with
  | nil =>
    intro store acc _ _ _ _
    exact ⟨store, by simp [getRangeGo]⟩
  | cons id rest ih =>
    intro store acc hsess hcache hnd hnf
    have hndr : rest.Nodup ∧ id ∉ rest := by
      constructor
      · exact (List.nodup_cons.mp hnd).2
      · exact (List.nodup_cons.mp hnd).1
    have hcid : odLookup store.cache id = odLookup store0.cache id :=
      hcache id (List.mem_cons_self id rest)
    have hload : loadResult store id allow = loadResult store0 id allow :=
      loadResult_congr store store0 id allow hsess hcid
    have hnfrest : ∀ k ∈ rest, isNonFatal (loadResult store0 k allow) = true :=
      fun k hk => hnf k (List.mem_cons_of_mem id hk)
    rw [getRangeGo_step]
    cases hg : store.get id allow with
    | error e =>
      have he : loadResult store0 id allow = Except.error e := by
        rw [← hload]
        unfold loadResult
        rw [hg]
      have hei : e = StoreError.incompleteBuild := by
        have h5 := hnf id (List.mem_cons_self id rest)
        rw [he] at h5
        exact (isNonFatal_error e).mp h5
      subst hei
      have hokp : okPart (loadResult store0 id allow) = none := by rw [he]; rfl
      obtain ⟨store2, hrec⟩ := ih store acc hsess
        (fun k hk => hcache k (List.mem_cons_of_mem id hk)) hndr.1 hnfrest
      refine ⟨store2, ?_⟩
      show getRangeGo allow store rest acc = _
      rw [hrec, List.filterMap_cons, hokp]
    | ok p =>
      obtain ⟨ob, st2⟩ := p
      have hpres := get_session_preserved store id allow ob st2 hg
      have he : loadResult store0 id allow = Except.ok ob := by
        rw [← hload]
        unfold loadResult
        rw [hg]
      have hcache2 : ∀ k ∈ rest, odLookup st2.cache k = odLookup store0.cache k := by
        intro k hk
        have hkid : k ≠ id := fun heq => hndr.2 (heq ▸ hk)
        rw [hpres.2 k hkid]
        exact hcache k (List.mem_cons_of_mem id hk)
      obtain ⟨store2, hrec⟩ := ih st2 (acc ++ [ob]) (hpres.1.trans hsess) hcache2
        hndr.1 hnfrest
      refine ⟨store2, ?_⟩
      show getRangeGo allow st2 rest (acc ++ [ob]) = _
      rw [hrec]
      have hokp : okPart (loadResult store0 id allow) = some ob := by rw [he]; rfl
      rw [List.filterMap_cons, hokp]
      simp [List.append_assoc]

/-- The first fatally failing id makes the `get_range` loop re-raise that
failure, provided every earlier id was skippable or successful. -/
theorem getRangeGo_fail (allow : Bool) (store0 : BuildStore) (e : StoreError)
    (he : e ≠ StoreError.incompleteBuild) :
    ∀ (pre : List Nat) (id : Nat) (post : List Nat) (store : BuildStore)
      (acc : List (Option Build)),
      store.session = store0.session →
      (∀ k ∈ pre ++ id :: post, odLookup store.cache k = odLookup store0.cache k) →
      (pre ++ id :: post).Nodup →
      (∀ k ∈ pre, isNonFatal (loadResult store0 k allow) = true) →
      loadResult store0 id allow = Except.error e →
      getRangeGo allow store (pre ++ id :: post) acc = Except.error e := by
  intro pre
  induction pre with
  | nil =>
    intro id post store acc hsess hcache _ _ hfail
    have hcid : odLookup store.cache id = odLookup store0.cache id :=
      hcache id (by simp)
    have hload : loadResult store id allow = Except.error e :=
      (loadResult_congr store store0 id allow hsess hcid).trans hfail
    have hget : store.get id allow = Except.error e := by
      unfold loadResult at hload
      cases hg : store.get id allow with
      | error e2 => rw [hg] at hload; simpa using hload
      | ok p => rw [hg] at hload; simp at hload
    rw [List.nil_append, getRangeGo_step, hget]
    cases e with
    | itemNotFound => rfl
    | incompleteBuild => exact absurd rfl he
    | keyError => rfl
  | cons k pre2 ih =>
    intro id post store acc hsess hcache hnd hpre hfail
    have hck : odLookup store.cache k = odLookup store0.cache k :=
      hcache k (by simp)
    have hloadk : loadResult store k allow = loadResult store0 k allow :=
      loadResult_congr store store0 k allow hsess hck
    have hndr : (pre2 ++ id :: post).Nodup ∧ k ∉ pre2 ++ id :: post := by
      constructor
      · exact (List.nodup_cons.mp (by simpa using hnd)).2
      · exact (List.nodup_cons.mp (by simpa using hnd)).1
    have hcache2base : ∀ k2 ∈ pre2 ++ id :: post,
        odLookup store.cache k2 = odLookup store0.cache k2 :=
      fun k2 hk2 => hcache k2 (by simp [hk2])
    have hpre2 : ∀ k2 ∈ pre2, isNonFatal (loadResult store0 k2 allow) = true :=
      fun k2 hk2 => hpre k2 (List.mem_cons_of_mem k hk2)
    have hstep : getRangeGo allow store ((k :: pre2) ++ id :: post) acc =
        getRangeGo allow store (k :: (pre2 ++ id :: post)) acc := rfl
    rw [hstep, getRangeGo_step]
    have hnfk := hpre k (List.mem_cons_self k pre2)
    cases hg : store.get k allow with
    | error e2 =>
      have hek : loadResult store0 k allow = Except.error e2 := by
        rw [← hloadk]
        unfold loadResult
        rw [hg]
      have he2 : e2 = StoreError.incompleteBuild := by
        rw [hek] at hnfk
        exact (isNonFatal_error e2).mp hnfk
      subst he2
      show getRangeGo allow store (pre2 ++ id :: post) acc = _
      exact ih id post store acc hsess hcache2base hndr.1 hpre2 hfail
    | ok p =>
      obtain ⟨ob, st2⟩ := p
      have hpres := get_session_preserved store k allow ob st2 hg
      show getRangeGo allow st2 (pre2 ++ id :: post) (acc ++ [ob]) = _
      have hcache2 : ∀ k2 ∈ pre2 ++ id :: post,
          odLookup st2.cache k2 = odLookup store0.cache k2 := by
        intro k2 hk2
        have hk2k : k2 ≠ k := fun heq => hndr.2 (heq ▸ hk2)
        rw [hpres.2 k2 hk2k]
        exact hcache2base k2 hk2
      exact ih id post st2 (acc ++ [ob]) (hpres.1.trans hsess) hcache2 hndr.1
        hpre2 hfail

theorem reconstructBuild_ok (s : Session) (bid : Nat) (allow : Bool) (row : BuildRow)
    (subjobDict : List (Nat × Subjob))
    (hfind : s.flush.db.builds.find? (fun r => r.build_id == bid) = some row)
    (hgate : (!allow && !row.completed) = false)
    (hdict : buildSubjobDict bid
      (s.flush.db.subjobs.filter (fun r => r.build_id == bid))
      (s.flush.db.atoms.filter (fun r => r.build_id == bid)) = Except.ok subjobDict) :
    reconstructBuild s bid allow =
      Except.ok (some (assembleBuild s.flush.db bid row subjobDict)) := by
  simp only [reconstructBuild, hfind, hgate, Bool.false_eq_true, if_false, hdict]

/-! ## Claim theorems -/

/-- Claim C3, counterexample: on an empty store (no cache entry, no build
row for id 1) `get` does not fail with an `ItemNotFound`-class error — it
returns the `None` sentinel. -/
theorem get_missing_returns_none_cex :
    BuildStore.count_all_builds freshStore = 0 ∧
    freshStore.get 1 false = Except.ok (none, freshStore) := ⟨rfl, rfl⟩

/-- Claim C3, amended: for every build id absent from both the cache and
the relational store, `get` returns `None` (the store's
`ItemNotFound`-class failure is raised by `save`, not by `get`). -/
theorem get_missing_returns_none (store : BuildStore) (id : Nat) (allow : Bool)
    (hc : odLookup store.cache id = none)
    (hdb : ∀ r ∈ store.session.flush.db.builds, r.build_id ≠ id) :
    store.get id allow = Except.ok (none, store) := by
  have hfind : store.session.flush.db.builds.find? (fun r => r.build_id == id) = none := by
    rw [List.find?_eq_none]
    intro r hr
    simp [hdb r hr]
  have hrec : reconstructBuild store.session id allow = Except.ok none := by
    simp only [reconstructBuild, hfind]
  unfold BuildStore.get
  rw [hc, hrec]

/-- Claim C3, witness for the amended theorem at a concrete store. -/
theorem get_missing_returns_none_witness :
    freshStore.get 1 false = Except.ok (none, freshStore) :=
  get_missing_returns_none freshStore 1 false rfl (by decide)

/-- Claim C7: `save` on a build whose id matches no persisted row — in
particular a build with no id at all — fails with the not-found error and
produces no updated session. -/
theorem save_missing_build_fails (store : BuildStore) (b : Build)
    (h : ∀ r ∈ store.session.flush.db.builds, some r.build_id ≠ b.build_id) :
    store.save b = Except.error StoreError.itemNotFound := by
  cases hb : b.build_id with
  | none => simp [BuildStore.save, updateBuildOnSession, hb]
  | some id =>
    have hfind : store.session.flush.db.builds.find? (fun r => r.build_id == id) = none := by
      rw [List.find?_eq_none]
      intro r hr
      have h2 := h r hr
      rw [hb] at h2
      simp only [beq_iff_eq]
      intro he
      exact h2 (by rw [he])
    simp [BuildStore.save, updateBuildOnSession, hb, hfind]

/-- Claim C7, witness: saving a never-added build (id 5) against a fresh
store raises the not-found error. -/
theorem save_missing_build_fails_witness :
    freshStore.save { buildW with build_id := some 5 } =
      Except.error StoreError.itemNotFound :=
  save_missing_build_fails freshStore { buildW with build_id := some 5 } (by decide)

/-- Claim C10: a cached build is returned as-is even with
`allow_incompleted_builds = False` and a non-`FINISHED` state — the
incomplete-build gate lives only on the cache-miss reconstruction path. -/
theorem get_cache_hit_bypasses_gate (store : BuildStore) (id : Nat) (b : Build)
    (hb : odLookup store.cache id = some b)
    (hstate : b.state ≠ BuildState.FINISHED) :
    store.get id false = Except.ok (some b, store) := by
  unfold BuildStore.get
  rw [hb]

/-- Claim C10, witness: a cached never-finished (still `QUEUED`) build is
returned by `get` with the gate closed. -/
theorem get_cache_hit_bypasses_gate_witness :
    cacheHitStore.get 1 false = Except.ok (some (Build.new [("k", "v")]), cacheHitStore) :=
  get_cache_hit_bypasses_gate cacheHitStore 1 (Build.new [("k", "v")]) rfl (by decide)

/-- Claim C5: after a successful reconstruction, the unstarted queue holds
exactly the not-completed subjobs and the finished queue exactly the
completed ones (in dict order), both queues are bounded by the total subjob
count, and together they are a permutation of the full subjob mapping —
every subjob in exactly one queue, no duplicates, no omissions. -/
theorem reconstruct_partitions_subjob_queues (s : Session) (id : Nat) (allow : Bool)
    (b : Build) (h : reconstructBuild s id allow = Except.ok (some b)) :
    b.unstarted_subjobs.items =
      (b.all_subjobs_by_id.map Prod.snd).filter (fun sj => !sj.completed) ∧
    b.finished_subjobs.items =
      (b.all_subjobs_by_id.map Prod.snd).filter (fun sj => sj.completed) ∧
    b.unstarted_subjobs.maxsize = b.all_subjobs_by_id.length ∧
    b.finished_subjobs.maxsize = b.all_subjobs_by_id.length ∧
    (b.finished_subjobs.items ++ b.unstarted_subjobs.items).Perm
      (b.all_subjobs_by_id.map Prod.snd) := by
  simp only [reconstructBuild] at h
  split at h
  · simp at h
  · rename_i row
    split at h
    · simp at h
    · split at h
      · simp at h
      · rename_i subjobDict heq
        simp only [Except.ok.injEq, Option.some.injEq] at h
        subst h
        refine ⟨?_, ?_, ?_, ?_, ?_⟩
        · show (partitionSubjobs subjobDict).1.items = _
          rw [partitionSubjobs_eq]
          rfl
        · show (partitionSubjobs subjobDict).2.items = _
          rw [partitionSubjobs_eq]
          rfl
        · show (partitionSubjobs subjobDict).1.maxsize = _
          rw [partitionSubjobs_eq]
          rfl
        · show (partitionSubjobs subjobDict).2.maxsize = _
          rw [partitionSubjobs_eq]
          rfl
        · show ((partitionSubjobs subjobDict).2.items ++
            (partitionSubjobs subjobDict).1.items).Perm (subjobDict.map Prod.snd)
          rw [partitionSubjobs_eq]
          exact List.filter_append_perm (fun sj => sj.completed) (subjobDict.map Prod.snd)

/-- Claim C5, witness: the reconstruction of `buildW` (one finished and one
unstarted subjob) satisfies the queue-partition contract. -/
theorem reconstruct_partitions_subjob_queues_witness :
    buildW5.unstarted_subjobs.items =
      (buildW5.all_subjobs_by_id.map Prod.snd).filter (fun sj => !sj.completed) ∧
    buildW5.finished_subjobs.items =
      (buildW5.all_subjobs_by_id.map Prod.snd).filter (fun sj => sj.completed) ∧
    buildW5.unstarted_subjobs.maxsize = buildW5.all_subjobs_by_id.length ∧
    buildW5.finished_subjobs.maxsize = buildW5.all_subjobs_by_id.length ∧
    (buildW5.finished_subjobs.items ++ buildW5.unstarted_subjobs.items).Perm
      (buildW5.all_subjobs_by_id.map Prod.snd) :=
  reconstruct_partitions_subjob_queues
    (BuildStore.add freshStore buildW).1.session 1 true buildW5 (by rfl)

/-- Claim C1: result reporting attempts the payload absorption, then — on
the success path and the failure path alike — issues exactly one
free-executor notification to the scheduler, after the absorption attempt,
and only then surfaces the absorption outcome (re-raising the original
error) to the caller. -/
theorem handle_result_frees_executor_exactly_once (slave_url : String)
    (build_id subjob_id : Nat) (absorb : Except String Unit) :
    (handle_result_reported_from_slave slave_url build_id subjob_id absorb).1 =
      [SchedulerEvent.completeSubjobAttempt build_id subjob_id,
       SchedulerEvent.freeExecutor slave_url] ∧
    (handle_result_reported_from_slave slave_url build_id subjob_id absorb).1.countP
      (fun e => e == SchedulerEvent.freeExecutor slave_url) = 1 ∧
    (handle_result_reported_from_slave slave_url build_id subjob_id absorb).2 =
      absorb := by
  cases absorb with
  | ok u =>
    cases u
    refine ⟨rfl, ?_, rfl⟩
    simp [handle_result_reported_from_slave, List.countP_cons]
  | error e =>
    refine ⟨rfl, ?_, rfl⟩
    simp [handle_result_reported_from_slave, List.countP_cons]

/-- Claim C8, counterexample: with the unit tests' configuration
(max limit 10), a request with neither offset nor limit (a v1 request)
returns the entire 20-element collection — more than the configured
maximum. -/
theorem paginate_v1_exceeds_max_cex :
    cfgW.limit_max = 10 ∧
    (paginate (List.range 20) none none cfgW).length = 20 := ⟨rfl, by decide⟩

/-- Claim C8, amended: whenever at least one of offset/limit is supplied,
the paginated slice never exceeds the configured maximum limit, and a
supplied offset at or past the collection size yields an empty result; a
request with neither parameter (v1) returns the whole collection. -/
theorem paginate_contract {α : Type} (items : List α) (offset limit : Option Nat)
    (cfg : PaginationConfig) :
    ((offset.isSome = true ∨ limit.isSome = true) →
      (paginate items offset limit cfg).length ≤ cfg.limit_max) ∧
    (∀ off, offset = some off → items.length ≤ off →
      paginate items offset limit cfg = []) ∧
    paginate items none none cfg = items := by
  refine ⟨?_, ?_, ?_⟩
  · intro h
    cases offset with
    | none =>
      cases limit with
      | none => simp at h
      | some lim =>
        simp only [paginate, get_paginated_indices, List.length_drop, List.length_take]
        simp only [Option.getD_none, Option.getD_some]
        omega
    | some off =>
      cases limit with
      | none =>
        simp only [paginate, get_paginated_indices, List.length_drop, List.length_take]
        simp only [Option.getD_none, Option.getD_some]
        omega
      | some lim =>
        simp only [paginate, get_paginated_indices, List.length_drop, List.length_take]
        simp only [Option.getD_none, Option.getD_some]
        omega
  · intro off hoff hlen
    subst hoff
    apply List.drop_eq_nil_of_le
    cases limit with
    | none =>
      simp only [paginate, get_paginated_indices, List.length_take]
      simp only [Option.getD_some]
      omega
    | some lim =>
      simp only [paginate, get_paginated_indices, List.length_take]
      simp only [Option.getD_some]
      omega
  · simp [paginate, get_paginated_indices]

/-- Claim C8, witness: with the tests' configuration, offset 3 / limit 5
stays within the maximum and offset 1000 on a 20-item collection is empty. -/
theorem paginate_contract_witness :
    (paginate (List.range' 1 20) (some 3) (some 5) cfgW).length ≤ cfgW.limit_max ∧
    paginate (List.range' 1 20) (some 1000) (some 5) cfgW = [] :=
  ⟨(paginate_contract (List.range' 1 20) (some 3) (some 5) cfgW).1 (Or.inl rfl),
   (paginate_contract (List.range' 1 20) (some 1000) (some 5) cfgW).2.1 1000 rfl
     (by decide)⟩

theorem odLookup_eq_none_iff {κ α : Type} [BEq κ] [LawfulBEq κ]
    (l : List (κ × α)) (k : κ) :
    odLookup l k = none ↔ ∀ p ∈ l, p.1 ≠ k := by
  induction l with
  | nil => simp [odLookup]
  | cons p rest ih =>
    unfold odLookup
    by_cases hp : (p.1 == k) = true
    · have hpk : p.1 = k := by simpa using hp
      rw [if_pos hp]
      constructor
      · intro h2; exact absurd h2 (by simp)
      · intro h2; exact absurd hpk (h2 p (List.mem_cons_self p rest))
    · have hpk : p.1 ≠ k := by simpa using hp
      rw [if_neg hp, ih]
      constructor
      · intro h2 q hq
        rcases List.mem_cons.mp hq with he | hq2
        · rw [he]; exact hpk
        · exact h2 q hq2
      · intro h2 q hq
        exact h2 q (List.mem_cons_of_mem p hq)

theorem odLookup_some_mem {κ α : Type} [BEq κ] [LawfulBEq κ]
    (l : List (κ × α)) (k : κ) (v : α) (h : odLookup l k = some v) : (k, v) ∈ l := by
  induction l with
  | nil => simp [odLookup] at h
  | cons p rest ih =>
    unfold odLookup at h
    by_cases hp : (p.1 == k) = true
    · rw [if_pos hp] at h
      cases p with
      | mk a b =>
        have ha : a = k := by simpa using hp
        have hb : b = v := by simpa using h
        rw [← ha, ← hb]
        exact List.mem_cons_self _ _
    · rw [if_neg hp] at h
      exact List.mem_cons_of_mem p (ih h)

/-- Claim C9: `get_slave` demands exactly one selector — both or neither is
a bad-request-class caller error; a single selector matching no registered
slave is the not-found error (iff), and a matching single selector returns
the slave carrying that id or url.  The well-formedness hypothesis states
the registry invariant that each slave is keyed by its own url. -/
theorem get_slave_selector_contract (m : ClusterMaster) (sid : Nat) (u : String)
    (hwf : ∀ p ∈ m.all_slaves_by_url, (p.2).url = p.1) :
    m.get_slave (some sid) (some u) = Except.error MasterError.badRequest ∧
    m.get_slave none none = Except.error MasterError.badRequest ∧
    ((∀ p ∈ m.all_slaves_by_url, (p.2).id ≠ sid) ↔
      m.get_slave (some sid) none = Except.error MasterError.itemNotFound) ∧
    ((∀ p ∈ m.all_slaves_by_url, p.1 ≠ u) ↔
      m.get_slave none (some u) = Except.error MasterError.itemNotFound) ∧
    (∀ s, m.get_slave (some sid) none = Except.ok s → s.id = sid) ∧
    (∀ s, m.get_slave none (some u) = Except.ok s → s.url = u) ∧
    ((∃ p ∈ m.all_slaves_by_url, (p.2).id = sid) →
      ∃ s, m.get_slave (some sid) none = Except.ok s ∧ s.id = sid) ∧
    ((∃ p ∈ m.all_slaves_by_url, p.1 = u) →
      ∃ s, m.get_slave none (some u) = Except.ok s ∧ s.url = u) := by
  have hbyid : m.get_slave (some sid) none =
      (match (m.all_slaves_by_url.map (fun p => p.2)).find? (fun s => s.id == sid) with
       | some s => Except.ok s
       | none => Except.error MasterError.itemNotFound) := rfl
  have hbyurl : m.get_slave none (some u) =
      (match odLookup m.all_slaves_by_url u with
       | some s => Except.ok s
       | none => Except.error MasterError.itemNotFound) := rfl
  refine ⟨rfl, rfl, ?_, ?_, ?_, ?_, ?_, ?_⟩
  · cases hf : (m.all_slaves_by_url.map (fun p => p.2)).find? (fun s => s.id == sid) with
    | none =>
      rw [hbyid, hf]
      constructor
      · intro _; rfl
      · intro _ p hp hpe
        have h2 := List.find?_eq_none.mp hf p.2 (List.mem_map_of_mem _ hp)
        simp [hpe] at h2
    | some s0 =>
      rw [hbyid, hf]
      have hs0 : s0.id = sid := by simpa using List.find?_some hf
      obtain ⟨p, hp, hps⟩ := List.mem_map.mp (List.mem_of_find?_eq_some hf)
      constructor
      · intro hall
        exact absurd (hps ▸ hs0 : (p.2).id = sid) (hall p hp)
      · intro herr
        simp at herr
  · cases hf : odLookup m.all_slaves_by_url u with
    | none =>
      rw [hbyurl, hf]
      constructor
      · intro _; rfl
      · intro _; exact (odLookup_eq_none_iff m.all_slaves_by_url u).mp hf
    | some s0 =>
      rw [hbyurl, hf]
      have hmem : (u, s0) ∈ m.all_slaves_by_url := odLookup_some_mem _ _ _ hf
      constructor
      · intro hall
        exact absurd rfl (hall (u, s0) hmem)
      · intro herr
        simp at herr
  · intro s hs
    rw [hbyid] at hs
    cases hf : (m.all_slaves_by_url.map (fun p => p.2)).find? (fun s2 => s2.id == sid) with
    | none => rw [hf] at hs; simp at hs
    | some s0 =>
      rw [hf] at hs
      have hs0 : s0.id = sid := by simpa using List.find?_some hf
      have : s0 = s := by simpa using hs
      rw [← this]
      exact hs0
  · intro s hs
    rw [hbyurl] at hs
    cases hf : odLookup m.all_slaves_by_url u with
    | none => rw [hf] at hs; simp at hs
    | some s0 =>
      rw [hf] at hs
      have hmem : (u, s0) ∈ m.all_slaves_by_url := odLookup_some_mem _ _ _ hf
      have hurl : s0.url = u := hwf (u, s0) hmem
      have : s0 = s := by simpa using hs
      rw [← this]
      exact hurl
  · intro hex
    cases hf : (m.all_slaves_by_url.map (fun p => p.2)).find? (fun s2 => s2.id == sid) with
    | none =>
      obtain ⟨p, hp, hpe⟩ := hex
      have h2 := List.find?_eq_none.mp hf p.2 (List.mem_map_of_mem _ hp)
      simp [hpe] at h2
    | some s0 =>
      have hs0 : s0.id = sid := by simpa using List.find?_some hf
      exact ⟨s0, by rw [hbyid, hf], hs0⟩
  · intro hex
    cases hf : odLookup m.all_slaves_by_url u with
    | none =>
      obtain ⟨p, hp, hpe⟩ := hex
      have h2 := (odLookup_eq_none_iff m.all_slaves_by_url u).mp hf p hp
      exact absurd hpe h2
    | some s0 =>
      have hmem : (u, s0) ∈ m.all_slaves_by_url := odLookup_some_mem _ _ _ hf
      exact ⟨s0, by rw [hbyurl, hf], hwf (u, s0) hmem⟩

/-- Claim C9, witness: the spec §8 example — slaves "a", "b", "c" with ids
1, 2, 3; selecting by id 2 alone succeeds while supplying both selectors is
a bad request, and an unknown id is not-found. -/
theorem get_slave_selector_contract_witness :
    masterW.get_slave (some 2) (some "b") = Except.error MasterError.badRequest ∧
    (∃ s, masterW.get_slave (some 2) none = Except.ok s ∧ s.id = 2) ∧
    ((∀ p ∈ masterW.all_slaves_by_url, (p.2).id ≠ 400) ↔
      masterW.get_slave (some 400) none = Except.error MasterError.itemNotFound) :=
  ⟨(get_slave_selector_contract masterW 2 "b" (by decide)).1,
   (get_slave_selector_contract masterW 2 "b" (by decide)).2.2.2.2.2.2.1
     ⟨("b", { id := 2, url := "b", num_executors := 10, is_alive := true,
              current_build_id := none }), by decide, rfl⟩,
   (get_slave_selector_contract masterW 400 "b" (by decide)).2.2.1⟩

/-- Claim C6, counterexample: on an empty store (zero persisted builds),
`get_range(0, 1)` does not return "the builds with ids in (0, 1]" (there
are none) — it returns a one-element list holding the `None` sentinel that
`get` produced for the missing id 1. -/
theorem get_range_none_entry_cex :
    BuildStore.count_all_builds freshStore = 0 ∧
    freshStore.get_range 0 1 false = Except.ok ([none], freshStore) := ⟨rfl, rfl⟩

/-- Claim C6, amended: `get_range(start, end)` iterates the 1-based ids in
`(start, end]`; when no id in range fails fatally it returns, in order, one
entry per id whose load did not raise the incomplete-build signal — the
build for ids that load, `None` for ids with no row — silently skipping
exactly the incomplete-build ids; and the first fatal failure (any error
other than the incomplete-build signal) propagates to the caller. -/
theorem get_range_spec (store : BuildStore) (start stop : Nat) (allow : Bool) :
    ((∀ id ∈ rangeIds start stop, isNonFatal (loadResult store id allow) = true) →
      ∃ store2, store.get_range start stop allow =
        Except.ok ((rangeIds start stop).filterMap
          (fun id => okPart (loadResult store id allow)), store2)) ∧
    (∀ e, e ≠ StoreError.incompleteBuild → ∀ pre id post,
      rangeIds start stop = pre ++ id :: post →
      (∀ k ∈ pre, isNonFatal (loadResult store k allow) = true) →
      loadResult store id allow = Except.error e →
      store.get_range start stop allow = Except.error e) := by
  have hnd : (rangeIds start stop).Nodup := by
    unfold rangeIds
    exact List.nodup_range' _ _ 1 one_pos
  constructor
  · intro hok
    obtain ⟨store2, hrec⟩ := getRangeGo_ok allow store (rangeIds start stop) store []
      rfl (fun _ _ => rfl) hnd hok
    refine ⟨store2, ?_⟩
    unfold BuildStore.get_range
    simpa using hrec
  · intro e he pre id post hsplit hpre hfail
    unfold BuildStore.get_range
    rw [hsplit]
    exact getRangeGo_fail allow store e he pre id post store [] rfl
      (fun k hk => rfl) (hsplit ▸ hnd) hpre hfail

/-- Claim C6, witness: on the empty store, the success clause applies to
the range `(0, 1]` — id 1 loads without a fatal error and contributes its
`None` entry. -/
theorem get_range_spec_witness :
    ∃ store2, freshStore.get_range 0 1 false =
      Except.ok ((rangeIds 0 1).filterMap
        (fun id => okPart (loadResult freshStore id false)), store2) :=
  (get_range_spec freshStore 0 1 false).1 (by decide)

theorem reconSubjobEntries_keys (bid : Nat) (entries : List (Nat × Subjob)) :
    (reconSubjobEntries bid entries).map Prod.fst = entries.map Prod.fst := by
  induction entries with
  | nil => rfl
  | cons p rest ih => simp only [reconSubjobEntries, List.map_cons] at ih ⊢; rw [ih]

theorem reconSubjobEntries_fields (bid : Nat) (entries : List (Nat × Subjob)) :
    List.Forall₂
      (fun q p => q.1 = p.1 ∧ (q.2).completed = (p.2).completed ∧ (q.2).atoms = (p.2).atoms)
      (reconSubjobEntries bid entries) entries := by
  induction entries with
  | nil => exact List.Forall₂.nil
  | cons p rest ih => exact List.Forall₂.cons ⟨rfl, rfl, rfl⟩ ih

/-- Claim C2, counterexample: a build owning a subjob with an empty atom
sequence does not round-trip — after `add`, a fresh-cache `get` (even with
`allow_incompleted_builds = True`) fails with the `KeyError` escaping the
atom-grouping step instead of yielding an equal build. -/
theorem add_get_roundtrip_cex :
    atomlessBuild.build_id = none ∧
    BuildStore.get
      { session := (BuildStore.add freshStore atomlessBuild).1.session, cache := [] }
      1 true = Except.error StoreError.keyError := ⟨rfl, rfl⟩

/-- Claim C2, amended: for every id-less Build each of whose subjobs owns
at least one atom (keys distinct, the ordered-dict invariant), adding it to
a fresh store and reading id 1 back through an empty cache (a restart)
yields a Build agreeing field-for-field on the scalar result fields, the
FSM current state, the per-state timestamps, the subjob keys in order, and
each subjob's completed flag and atom sequence. -/
theorem add_get_roundtrip (b : Build) (hid : b.build_id = none)
    (hkeys : (b.all_subjobs_by_id.map Prod.fst).Nodup)
    (hatoms : ∀ p ∈ b.all_subjobs_by_id, (p.2).atoms ≠ []) :
    ∃ b2 store2,
      BuildStore.get { session := (BuildStore.add freshStore b).1.session, cache := [] }
        1 true = Except.ok (some b2, store2) ∧
      b2.artifacts_tar_file = b.artifacts_tar_file ∧
      b2.artifacts_zip_file = b.artifacts_zip_file ∧
      b2.error_message = b.error_message ∧
      b2.postbuild_tasks_are_finished = b.postbuild_tasks_are_finished ∧
      b2.setup_failures = b.setup_failures ∧
      b2.timing_file_path = b.timing_file_path ∧
      b2.state = b.state ∧
      b2.transition_timestamps = b.transition_timestamps ∧
      b2.all_subjobs_by_id.map Prod.fst = b.all_subjobs_by_id.map Prod.fst ∧
      List.Forall₂
        (fun q p => q.1 = p.1 ∧ (q.2).completed = (p.2).completed ∧
          (q.2).atoms = (p.2).atoms)
        b2.all_subjobs_by_id b.all_subjobs_by_id := by
  have hsess : (BuildStore.add freshStore b).1.session =
      { db := { builds := [buildRowOf b 1]
                failed_artifact_directories := dirRowsOptOf b 1
                failed_subjob_atom_pairs := pairRowsOptOf b 1
                subjobs := subjobRowsOf b.all_subjobs_by_id 1
                atoms := atomRowsOf b.all_subjobs_by_id 1
                next_build_id := 2 },
        pending := [] } := by
    show (storeBuildOnSession { db := emptyDb, pending := [] } b).1 = _
    rw [storeBuildOnSession_fresh]
  rw [hsess]
  set SL : Session :=
    { db := { builds := [buildRowOf b 1]
              failed_artifact_directories := dirRowsOptOf b 1
              failed_subjob_atom_pairs := pairRowsOptOf b 1
              subjobs := subjobRowsOf b.all_subjobs_by_id 1
              atoms := atomRowsOf b.all_subjobs_by_id 1
              next_build_id := 2 },
      pending := [] } with hSL
  have hflush : SL.flush = SL := flush_of_pending_nil SL rfl
  have hfind : SL.flush.db.builds.find? (fun r => r.build_id == 1) =
      some (buildRowOf b 1) := by
    rw [hflush]
    rfl
  have hgate : (!true && !(buildRowOf b 1).completed) = false := rfl
  have hsubf : SL.flush.db.subjobs.filter (fun r => r.build_id == 1) =
      subjobRowsOf b.all_subjobs_by_id 1 := by
    rw [hflush]
    exact List.filter_eq_self.mpr
      (fun r hr => by simp [mem_subjobRowsOf _ _ _ hr])
  have hatf : SL.flush.db.atoms.filter (fun r => r.build_id == 1) =
      atomRowsOf b.all_subjobs_by_id 1 := by
    rw [hflush]
    exact List.filter_eq_self.mpr
      (fun r hr => by simp [mem_atomRowsOf _ _ _ hr])
  have hdict : buildSubjobDict 1 (SL.flush.db.subjobs.filter (fun r => r.build_id == 1))
      (SL.flush.db.atoms.filter (fun r => r.build_id == 1)) =
      Except.ok (reconSubjobEntries 1 b.all_subjobs_by_id) := by
    rw [hsubf, hatf]
    exact buildSubjobDict_roundtrip 1 b.all_subjobs_by_id hkeys hatoms
  have hrecon := reconstructBuild_ok SL 1 true (buildRowOf b 1)
    (reconSubjobEntries 1 b.all_subjobs_by_id) hfind hgate hdict
  refine ⟨assembleBuild SL.flush.db 1 (buildRowOf b 1)
      (reconSubjobEntries 1 b.all_subjobs_by_id),
    { session := SL,
      cache := [(1, assembleBuild SL.flush.db 1 (buildRowOf b 1)
        (reconSubjobEntries 1 b.all_subjobs_by_id))] }, ?_, rfl, rfl, rfl, rfl, rfl,
    rfl, rfl, rfl, ?_, ?_⟩
  · show (match reconstructBuild SL 1 true with
      | Except.error e => Except.error e
      | Except.ok none => Except.ok (none, ({ session := SL, cache := [] } : BuildStore))
      | Except.ok (some b3) =>
          Except.ok (some b3, { session := SL, cache := odInsert [] 1 b3 })) = _
    rw [hrecon]
    rfl
  · show (reconSubjobEntries 1 b.all_subjobs_by_id).map Prod.fst = _
    exact reconSubjobEntries_keys 1 b.all_subjobs_by_id
  · show List.Forall₂ _ (reconSubjobEntries 1 b.all_subjobs_by_id) b.all_subjobs_by_id
    exact reconSubjobEntries_fields 1 b.all_subjobs_by_id

/-- Claim C2, witness for the amended theorem: `buildW` (two subjobs, one
atom each) round-trips. -/
theorem add_get_roundtrip_witness :
    ∃ b2 store2,
      BuildStore.get { session := (BuildStore.add freshStore buildW).1.session, cache := [] }
        1 true = Except.ok (some b2, store2) ∧
      b2.artifacts_tar_file = buildW.artifacts_tar_file ∧
      b2.artifacts_zip_file = buildW.artifacts_zip_file ∧
      b2.error_message = buildW.error_message ∧
      b2.postbuild_tasks_are_finished = buildW.postbuild_tasks_are_finished ∧
      b2.setup_failures = buildW.setup_failures ∧
      b2.timing_file_path = buildW.timing_file_path ∧
      b2.state = buildW.state ∧
      b2.transition_timestamps = buildW.transition_timestamps ∧
      b2.all_subjobs_by_id.map Prod.fst = buildW.all_subjobs_by_id.map Prod.fst ∧
      List.Forall₂
        (fun q p => q.1 = p.1 ∧ (q.2).completed = (p.2).completed ∧
          (q.2).atoms = (p.2).atoms)
        b2.all_subjobs_by_id buildW.all_subjobs_by_id :=
  add_get_roundtrip buildW rfl (by decide) (by decide)

/-- Claim C4: for a build with an artifact record whose id has a persisted
row, `save` succeeds; after the caller's commit each child table holds
exactly the build's current in-memory rows for that id (no element lost to
the preceding delete, no stale row surviving), and the emitted operation
trace deletes each child table and commits that delete before inserting
into it. -/
theorem save_clear_and_rewrites_children (store : BuildStore) (b : Build) (id : Nat)
    (art : BuildArtifact) (hid : b.build_id = some id)
    (hart : b.build_artifact = some art)
    (hrow : (store.session.flush.db.builds.find? (fun r => r.build_id == id)).isSome =
      true) :
    ∃ store2, store.save b = Except.ok store2 ∧
      store2.session.flush.db.failed_artifact_directories.filter
        (fun r => r.build_id == id) = dirRowsOf art id ∧
      store2.session.flush.db.failed_subjob_atom_pairs.filter
        (fun r => r.build_id == id) = pairRowsOf art id ∧
      store2.session.flush.db.subjobs.filter (fun r => r.build_id == id) =
        subjobRowsOf b.all_subjobs_by_id id ∧
      store2.session.flush.db.atoms.filter (fun r => r.build_id == id) =
        atomRowsOf b.all_subjobs_by_id id ∧
      (∀ t : ChildTable, clearThenInsertOk t (updateChildOps b id) false false = true) := by
  obtain ⟨row, hfind⟩ := Option.isSome_iff_exists.mp hrow
  set sf2 : Session :=
    { db := { store.session.flush.db with builds := store.session.flush.db.builds.map (fun r => if r.build_id == id then buildRowOf b id else r) },
      pending := [] } with hsf2
  have hupd : updateBuildOnSession store.session b =
      Except.ok (runOps sf2 (updateChildOps b id)) := by
    unfold updateBuildOnSession
    rw [hid]
    show (match store.session.flush.db.builds.find? (fun r => r.build_id == id) with
      | none => Except.error StoreError.itemNotFound
      | some _ => Except.ok (runOps sf2 (updateChildOps b id))) =
      Except.ok (runOps sf2 (updateChildOps b id))
    rw [hfind]
  have hsave : store.save b =
      Except.ok { store with session := runOps sf2 (updateChildOps b id) } := by
    unfold BuildStore.save
    rw [hupd]
  have hfinal := runOps_updateChildOps sf2 rfl b art id hart
  refine ⟨_, hsave, ?_, ?_, ?_, ?_, fun t => updateChildOps_cti b id t⟩
  · show (runOps sf2 (updateChildOps b id)).flush.db.failed_artifact_directories.filter
      (fun r => r.build_id == id) = _
    rw [hfinal]
    exact filter_id_of_fresh_dirs _ _ id (fun r hr => mem_dirRowsOf art id r hr)
  · show (runOps sf2 (updateChildOps b id)).flush.db.failed_subjob_atom_pairs.filter
      (fun r => r.build_id == id) = _
    rw [hfinal]
    exact filter_id_of_fresh_pairs _ _ id (fun r hr => mem_pairRowsOf art id r hr)
  · show (runOps sf2 (updateChildOps b id)).flush.db.subjobs.filter
      (fun r => r.build_id == id) = _
    rw [hfinal]
    exact filter_id_of_fresh_subjobs _ _ id
      (fun r hr => mem_subjobRowsOf b.all_subjobs_by_id id r hr)
  · show (runOps sf2 (updateChildOps b id)).flush.db.atoms.filter
      (fun r => r.build_id == id) = _
    rw [hfinal]
    exact filter_id_of_fresh_atoms _ _ id
      (fun r hr => mem_atomRowsOf b.all_subjobs_by_id id r hr)

/-- Claim C4, witness: saving `buildW` (as build 1) against a database with
stale child rows for ids 1 and 2. -/
theorem save_clear_and_rewrites_children_witness :
    ∃ store2, storeW.save buildW1 = Except.ok store2 ∧
      store2.session.flush.db.failed_artifact_directories.filter
        (fun r => r.build_id == 1) = dirRowsOf artW 1 ∧
      store2.session.flush.db.failed_subjob_atom_pairs.filter
        (fun r => r.build_id == 1) = pairRowsOf artW 1 ∧
      store2.session.flush.db.subjobs.filter (fun r => r.build_id == 1) =
        subjobRowsOf buildW1.all_subjobs_by_id 1 ∧
      store2.session.flush.db.atoms.filter (fun r => r.build_id == 1) =
        atomRowsOf buildW1.all_subjobs_by_id 1 ∧
      (∀ t : ChildTable, clearThenInsertOk t (updateChildOps buildW1 1) false false =
        true) :=
  save_clear_and_rewrites_children storeW buildW1 1 artW rfl rfl (by decide)

end ClusterRunner
